import Mathlib

/-!
Verification development for the ChronikCache repository (TypeScript).

The definitions below are a shallow embedding of the current TypeScript
sources: src/src/index.ts (the cache engine), src/src/lib/sortTxIds.ts,
src/src/lib/failover.ts, src/src/lib/hash.ts, src/src/lib/dbUtils.ts,
src/src/lib/WebSocketManager.ts and src/src/constants.ts.  JavaScript
numbers are modelled as Int (or Nat where the source value is a count),
JS objects/Maps as association lists with the source operations, and
fallible lookups as Option.
-/

namespace ChronikCache

/-- JS expression a || d for a number-typed option field: undefined and 0 are
falsy, every other number is returned as is (failover.ts constructor). -/
def jsOrInt (v : Option Int) (d : Int) : Int :=
  match v with
  | some x => if x = 0 then d else x
  | none => d

/-- JS expression b || d for a boolean-typed option field: undefined and false
are falsy (failover.ts constructor). -/
def jsOrBool (v : Option Bool) (d : Bool) : Bool :=
  match v with
  | some b => if b then b else d
  | none => d

/-- Whether a character list starts with a pattern. -/
def charsStartWith : List Char → List Char → Bool
  | _, [] => true
  | [], _ :: _ => false
  | c :: cs, p :: ps => (c == p) && charsStartWith cs ps

/-- Whether a character list contains a pattern as a contiguous run. -/
def charsContains : List Char → List Char → Bool
  | [], pat => charsStartWith [] pat
  | c :: cs, pat => charsStartWith (c :: cs) pat || charsContains cs pat

/-- Substring test used to state "message contains ...". -/
def strContains (s pat : String) : Bool :=
  charsContains s.toList pat.toList

/- ------------------------------------------------------------------
Transactions (the cache-relevant projection of src/src/types.ts, with the
optional fields of the Transaction interface of src/src/lib/sortTxIds.ts).
------------------------------------------------------------------ -/

/-- block field of a transaction: height is mandatory when the block record is
present, timestamp is optional (sortTxIds.ts interface TxBlock). -/
structure TxBlock where
  height : Int
  timestamp : Option Int
  deriving Repr, DecidableEq

/-- Cache-relevant transaction projection: txid, optional block, optional
mempool timestamp, timeFirstSeen, isFinal. -/
structure Transaction where
  txid : String
  block : Option TxBlock
  timestamp : Option Int
  timeFirstSeen : Int
  isFinal : Bool
  deriving Repr, DecidableEq

/- ------------------------------------------------------------------
Sort comparator (src/src/lib/sortTxIds.ts lines 19-50).  The TS comparator
checks txA.block && typeof txA.block.height !== 'undefined'; since height is
mandatory on TxBlock this is presence of the block record.  JS (x || 0) on an
optional number is Option.getD 0 (0 is falsy and maps to 0 as well).
------------------------------------------------------------------ -/

/-- The comparator body of sortTxIds: negative means a sorts before b. -/
def sortTxCompare (txA txB : Transaction) : Int :=
  match txA.block, txB.block with
  | none, none =>
    let timestampDiff := txB.timestamp.getD 0 - txA.timestamp.getD 0
    if timestampDiff ≠ 0 then timestampDiff else txB.timeFirstSeen - txA.timeFirstSeen
  | none, some _ => -1
  | some _, none => 1
  | some blockA, some blockB =>
    let heightDiff := blockB.height - blockA.height
    if heightDiff ≠ 0 then heightDiff
    else
      let timestampDiff := blockB.timestamp.getD 0 - blockA.timestamp.getD 0
      if timestampDiff ≠ 0 then timestampDiff else txB.timeFirstSeen - txA.timeFirstSeen

/-- Comparator written from the specification text (§4.4 / claim C5): both
unconfirmed means larger timestamp first (missing treated as 0), tie broken by
larger timeFirstSeen; exactly one unconfirmed comes first; both confirmed are
ordered by larger height, then larger block timestamp, then larger
timeFirstSeen.  Stated as selections, to be compared with sortTxCompare. -/
def specTxCompare (txA txB : Transaction) : Int :=
  match txA.block, txB.block with
  | none, none =>
    if txA.timestamp.getD 0 > txB.timestamp.getD 0 then -1
    else if txB.timestamp.getD 0 > txA.timestamp.getD 0 then 1
    else if txA.timeFirstSeen > txB.timeFirstSeen then -1
    else if txB.timeFirstSeen > txA.timeFirstSeen then 1
    else 0
  | none, some _ => -1
  | some _, none => 1
  | some blockA, some blockB =>
    if blockA.height > blockB.height then -1
    else if blockB.height > blockA.height then 1
    else if blockA.timestamp.getD 0 > blockB.timestamp.getD 0 then -1
    else if blockB.timestamp.getD 0 > blockA.timestamp.getD 0 then 1
    else if txA.timeFirstSeen > txB.timeFirstSeen then -1
    else if txB.timeFirstSeen > txA.timeFirstSeen then 1
    else 0

/- ------------------------------------------------------------------
Retry envelope (src/src/lib/failover.ts).  The operation is modelled as a
function from the 1-based attempt number to its outcome; executeWithRetry
records the returned or thrown value, the number of invocations and the
sequence of backoff sleeps.  A run whose loop never executes throws the
uninitialised lastError, modelled as Except.error none.
------------------------------------------------------------------ -/

/-- Constructor options of FailoverHandler (failover.ts lines 7-12); the
enableLogging/logger fields only drive logging and are elided. -/
structure FailoverOptions where
  maxRetries : Option Int := none
  retryDelay : Option Int := none
  exponentialBackoff : Option Bool := none
  deriving Repr

/-- FailoverHandler state after the constructor ran (failover.ts lines 21-27). -/
structure FailoverHandler where
  maxRetries : Int
  retryDelay : Int
  exponentialBackoff : Bool
  deriving Repr

/-- The FailoverHandler constructor: options.maxRetries || 3,
options.retryDelay || 1500, options.exponentialBackoff || true. -/
def FailoverHandler.ofOptions (options : FailoverOptions) : FailoverHandler where
  maxRetries := jsOrInt options.maxRetries 3
  retryDelay := jsOrInt options.retryDelay 1500
  exponentialBackoff := jsOrBool options.exponentialBackoff true

/-- Delay computed before a retry (failover.ts lines 36-38): with exponential
backoff it is retryDelay * 2^(attempt-1), otherwise retryDelay. -/
def FailoverHandler.delayAt (h : FailoverHandler) (attempt : Nat) : Int :=
  if h.exponentialBackoff then h.retryDelay * 2 ^ (attempt - 1) else h.retryDelay

/-- Result of one executeWithRetry run: the value returned or error thrown
(error none models throwing the uninitialised lastError), how many times the
operation was invoked, and the backoff sleeps performed, in order. -/
structure RetryRun (E A : Type) where
  result : Except (Option E) A
  invocations : Nat
  sleeps : List Int
  deriving Repr

/-- The retry loop of executeWithRetry (failover.ts lines 31-47), unrolled on
the number of remaining iterations; attempt is the current 1-based attempt. -/
def executeWithRetryAux (h : FailoverHandler) (op : Nat → Except E A) :
    Nat → Nat → Option E → List Int → RetryRun E A
  | attempt, 0, lastError, sleeps =>
    { result := Except.error lastError, invocations := attempt - 1, sleeps := sleeps }
  | attempt, fuel + 1, _, sleeps =>
    match op attempt with
    | Except.ok v => { result := Except.ok v, invocations := attempt, sleeps := sleeps }
    | Except.error e =>
      let sleeps2 := if (attempt : Int) < h.maxRetries then sleeps ++ [h.delayAt attempt] else sleeps
      executeWithRetryAux h op (attempt + 1) fuel (some e) sleeps2

/-- executeWithRetry (failover.ts lines 29-51): run attempts 1..maxRetries,
returning at the first success, sleeping between failed attempts, and finally
throwing the last error. -/
def executeWithRetry (h : FailoverHandler) (op : Nat → Except E A) : RetryRun E A :=
  executeWithRetryAux h op 1 h.maxRetries.toNat none []

/- ------------------------------------------------------------------
Durable store (src/src/lib/dbUtils.ts over LevelDB) and the per-subject cache
layout of src/src/index.ts (_readCache / _writeCache / metadata LRU).
------------------------------------------------------------------ -/

/-- constants.ts DEFAULT_CONFIG.MAX_ITEMS_PER_KEY. -/
def MAX_ITEMS_PER_KEY : Nat := 10000

/-- constants.ts DEFAULT_CONFIG.GLOBAL_METADATA_CACHE_LIMIT. -/
def GLOBAL_METADATA_CACHE_LIMIT : Nat := 100

/-- CacheMetadata (src/src/types.ts): accessCount, dataHash, numTxs.  The
wall-clock fields createdAt / lastAccessAt / updatedAt only record Date.now()
and are elided from the model. -/
structure CacheMetadata where
  accessCount : Nat
  dataHash : Option String
  numTxs : Option Nat
  deriving Repr, DecidableEq

/-- Database keys.  The source builds string keys by concatenation with ":"
separators (id:txOrder, id:txOrder:meta, id:txOrder:i, same for txMap, and
metadata:address:id / metadata:token:id via dbUtils.updateGlobalMetadata);
that grammar is unambiguous for the identifier spaces in use and is modelled
as a structured key type with the same components. -/
inductive DbKey where
  | flatOrder (id : String)
  | flatMap (id : String)
  | orderMeta (id : String)
  | mapMeta (id : String)
  | orderChunk (id : String) (i : Nat)
  | mapChunk (id : String) (i : Nat)
  | metadataOf (key : String)
  deriving Repr, DecidableEq

/-- Values stored in LevelDB (JSON-encoded in the source): a txOrder array, a
txMap object, a pagination header, or a metadata record. -/
inductive DbValue where
  | order (txOrder : List String)
  | txmap (m : List (String × Transaction))
  | meta (pageCount : Nat) (totalTxs : Nat)
  | metadata (md : CacheMetadata)
  deriving Repr, DecidableEq

/-- The durable key-value store. -/
abbrev Store := List (DbKey × DbValue)

/-- db.get: the value at a key, or none when absent (NotFound maps to null). -/
def storeGet (s : Store) (k : DbKey) : Option DbValue :=
  (s.find? (fun p => p.1 == k)).map (fun p => p.2)

/-- db.put: upsert of one key. -/
def storePut (s : Store) (k : DbKey) (v : DbValue) : Store :=
  (k, v) :: s.filter (fun p => p.1 != k)

/-- Lookup in a JS object or Map modelled as an association list. -/
def alistLookup {α : Type} (m : List (String × α)) (k : String) : Option α :=
  (m.find? (fun p => p.1 == k)).map (fun p => p.2)

/-- JS object property assignment m[k] = v: replace the entry in place when
the key is present (keys of a JS object are unique), or append it. -/
def jsObjectSet {α : Type} (m : List (String × α)) (k : String) (v : α) :
    List (String × α) :=
  match m with
  | [] => [(k, v)]
  | p :: ps => if p.1 == k then (k, v) :: ps else p :: jsObjectSet ps k v

/-- Object.assign(m, c): assign every property of c onto m, later keys win. -/
def jsAssign (m c : List (String × Transaction)) : List (String × Transaction) :=
  c.foldl (fun acc p => jsObjectSet acc p.1 p.2) m

/-- JSON.stringify of the txOrder string array. -/
def jsonOfList (l : List String) : String :=
  "[" ++ String.intercalate "," (l.map (fun s => "\"" ++ s ++ "\"")) ++ "]"

/-- computeHash (src/src/lib/hash.ts): SHA256(JSON.stringify(data)) over the
txOrder list.  SHA-256 is modelled by the JSON serialization itself: the code
uses the hash only as an equality fingerprint of the serialized list, and the
model keeps exactly that fingerprint behaviour (no SHA-256 collisions). -/
def computeHash (txOrder : List String) : String :=
  jsonOfList txOrder

/-- CacheData as passed to _writeCache: {txMap, txOrder}. -/
structure CacheData where
  txMap : List (String × Transaction)
  txOrder : List String
  deriving Repr, DecidableEq

/-- Result of _readCache: {txMap, txOrder, numTxs}. -/
structure ReadCacheResult where
  txMap : List (String × Transaction)
  txOrder : List String
  numTxs : Nat
  deriving Repr, DecidableEq

/-- Engine-side database state: the durable store plus the in-memory global
metadata LRU (globalMetadataCache, oldest entry first). -/
structure DbState where
  store : Store
  metaCache : List (String × CacheMetadata)
  deriving Repr, DecidableEq

/-- Key of the global metadata entry: token:id or address:id
(_getGlobalMetadata / _updateGlobalMetadata in src/src/index.ts). -/
def globalKey (identifier : String) (isToken : Bool) : String :=
  (if isToken then "token:" else "address:") ++ identifier

/-- _maintainGlobalMetadataCacheLimit: evict the oldest entries while the
in-memory cache exceeds the limit. -/
def maintainLimit : List (String × CacheMetadata) → List (String × CacheMetadata)
  | [] => []
  | x :: xs =>
    if (x :: xs).length > GLOBAL_METADATA_CACHE_LIMIT then maintainLimit xs else x :: xs

/-- _getGlobalMetadata: serve from the LRU (refreshing recency), else read
metadata:key from the store and cache the hit. -/
def getGlobalMetadata (st : DbState) (identifier : String) (isToken : Bool) :
    Option CacheMetadata × DbState :=
  match alistLookup st.metaCache (globalKey identifier isToken) with
  | some md =>
    (some md,
      { st with metaCache := st.metaCache.filter (fun p => p.1 != globalKey identifier isToken)
          ++ [(globalKey identifier isToken, md)] })
  | none =>
    match storeGet st.store (DbKey.metadataOf (globalKey identifier isToken)) with
    | some (DbValue.metadata md) =>
      (some md,
        { st with metaCache := maintainLimit (st.metaCache ++ [(globalKey identifier isToken, md)]) })
    | _ => (none, st)

/-- _updateGlobalMetadata: write metadata:key to the store, refresh the LRU
entry, and enforce the LRU limit. -/
def updateGlobalMetadata (st : DbState) (identifier : String) (md : CacheMetadata)
    (isToken : Bool) : DbState :=
  { store := storePut st.store (DbKey.metadataOf (globalKey identifier isToken))
      (DbValue.metadata md)
    metaCache := maintainLimit
      (st.metaCache.filter (fun p => p.1 != globalKey identifier isToken)
        ++ [(globalKey identifier isToken, md)]) }

/-- The txOrder chunk loop of _readCache: concatenate chunks 0..pageCount-1;
a missing or ill-typed chunk fails the read (caught as null in the source). -/
def readOrderChunks (store : Store) (id : String) : Nat → Option (List String)
  | 0 => some []
  | n + 1 => do
    let init ← readOrderChunks store id n
    match storeGet store (DbKey.orderChunk id n) with
    | some (DbValue.order c) => some (init ++ c)
    | _ => none

/-- The txMap chunk loop of _readCache: Object.assign chunks 0..pageCount-1
onto the empty object. -/
def readMapChunks (store : Store) (id : String) : Nat → Option (List (String × Transaction))
  | 0 => some []
  | n + 1 => do
    let init ← readMapChunks store id n
    match storeGet store (DbKey.mapChunk id n) with
    | some (DbValue.txmap c) => some (jsAssign init c)
    | _ => none

/-- _readCache (src/src/index.ts): load txOrder preferring the chunked form
when the meta header exists, load txMap identically, bump
accessCount/lastAccessAt in the (address-namespaced) global metadata, and
return {txMap, txOrder, numTxs}.  An absent flat txMap makes the source return
a null txMap; that corner is modelled as the empty map. -/
def readCache (st : DbState) (addressOrTokenId : String) : Option ReadCacheResult × DbState :=
  let txOrderOpt : Option (List String) :=
    match storeGet st.store (DbKey.orderMeta addressOrTokenId) with
    | some (DbValue.meta pageCount _) => readOrderChunks st.store addressOrTokenId pageCount
    | some _ => none
    | none =>
      match storeGet st.store (DbKey.flatOrder addressOrTokenId) with
      | some (DbValue.order l) => some l
      | _ => none
  match txOrderOpt with
  | none => (none, st)
  | some txOrder =>
    let txMapOpt : Option (List (String × Transaction)) :=
      match storeGet st.store (DbKey.mapMeta addressOrTokenId) with
      | some (DbValue.meta pageCount _) => readMapChunks st.store addressOrTokenId pageCount
      | some _ => none
      | none =>
        match storeGet st.store (DbKey.flatMap addressOrTokenId) with
        | some (DbValue.txmap m) => some m
        | some _ => none
        | none => some []
    match txMapOpt with
    | none => (none, st)
    | some txMap =>
      let (mdOpt, st1) := getGlobalMetadata st addressOrTokenId false
      let md := mdOpt.getD { accessCount := 0, dataHash := none, numTxs := none }
      let md2 := { md with accessCount := md.accessCount + 1 }
      let st2 := updateGlobalMetadata st1 addressOrTokenId md2 false
      (some { txMap := txMap, txOrder := txOrder, numTxs := md2.numTxs.getD txOrder.length }, st2)

/-- Ceiling division, Math.ceil(totalTxs / MAX_ITEMS_PER_KEY) on counts. -/
def ceilDivNat (a b : Nat) : Nat := (a + b - 1) / b

/-- Array.prototype.slice(a, b) on lists (0 ≤ a ≤ b). -/
def sliceList (l : List α) (a b : Nat) : List α := (l.drop a).take (b - a)

/-- The txOrder chunk puts of _writeCache: chunk i holds
txOrder.slice(i*MAX_ITEMS_PER_KEY, (i+1)*MAX_ITEMS_PER_KEY). -/
def orderChunkPuts (id : String) (txOrder : List String) (pageCount : Nat) :
    List (DbKey × DbValue) :=
  (List.range pageCount).map (fun i =>
    (DbKey.orderChunk id i,
      DbValue.order (sliceList txOrder (i * MAX_ITEMS_PER_KEY) ((i + 1) * MAX_ITEMS_PER_KEY))))

/-- The chunkMap loop body of _writeCache: chunkMap[txid] = data.txMap[txid]
for every txid of the chunk's key slice.  A txid absent from txMap would give
the property the value undefined, which JSON serialization drops; filterMap
models that. -/
def chunkMapOf (txMap : List (String × Transaction)) (chunkKeys : List String) :
    List (String × Transaction) :=
  chunkKeys.filterMap (fun txid => (alistLookup txMap txid).map (fun tx => (txid, tx)))

/-- The txMap chunk puts of _writeCache: chunk i maps each txid of the i-th
txOrder slice to data.txMap[txid]. -/
def mapChunkPuts (id : String) (data : CacheData) (pageCount : Nat) :
    List (DbKey × DbValue) :=
  (List.range pageCount).map (fun i =>
    (DbKey.mapChunk id i,
      DbValue.txmap (chunkMapOf data.txMap
        (sliceList data.txOrder (i * MAX_ITEMS_PER_KEY) ((i + 1) * MAX_ITEMS_PER_KEY)))))

/-- The no-op test of _writeCache:
metadata && metadata.dataHash && metadata.dataHash === newHash. -/
def writeSkips (mdOpt : Option CacheMetadata) (newHash : String) : Bool :=
  match mdOpt with
  | some md =>
    match md.dataHash with
    | some h2 => (h2 != "") && (h2 == newHash)
    | none => false
  | none => false

/-- _writeCache (src/src/index.ts): skip when the stored dataHash equals the
hash of data.txOrder; otherwise persist the chunked or flat layout and update
the global metadata.  Returns the new state and the sequence of db.put
operations performed. -/
def writeCache (st : DbState) (id : String) (data : CacheData) (isToken : Bool) :
    DbState × List (DbKey × DbValue) :=
  let newHash := computeHash data.txOrder
  let (mdOpt, st1) := getGlobalMetadata st id isToken
  if writeSkips mdOpt newHash then (st1, [])
  else
    let totalTxs := data.txOrder.length
    let puts :=
      if totalTxs > MAX_ITEMS_PER_KEY then
        let pageCount := ceilDivNat totalTxs MAX_ITEMS_PER_KEY
        orderChunkPuts id data.txOrder pageCount
          ++ [(DbKey.orderMeta id, DbValue.meta pageCount totalTxs)]
          ++ mapChunkPuts id data pageCount
          ++ [(DbKey.mapMeta id, DbValue.meta pageCount totalTxs)]
      else
        [(DbKey.flatMap id, DbValue.txmap data.txMap),
         (DbKey.flatOrder id, DbValue.order data.txOrder)]
    let store2 := puts.foldl (fun s p => storePut s p.1 p.2) st1.store
    let mdBase := mdOpt.getD { accessCount := 0, dataHash := none, numTxs := none }
    let md2 := { mdBase with dataHash := some newHash, numTxs := some totalTxs }
    let st2 := updateGlobalMetadata { st1 with store := store2 } id md2 isToken
    (st2, puts ++ [(DbKey.metadataOf (globalKey id isToken), DbValue.metadata md2)])

/- ------------------------------------------------------------------
Cache engine (src/src/index.ts): status maps, update locks, the update queue
admission, and the history entry points.  The chronik indexer and the
Math.random coin of the hash check are oracles; Date.now() is the now
parameter; WebSocket-manager interactions do not influence any field of the
returned envelopes and are recorded as log entries.
------------------------------------------------------------------ -/

/-- CACHE_STATUS (src/src/constants.ts lines 6-11). -/
inductive CacheStatus where
  | UNKNOWN
  | LATEST
  | UPDATING
  | REJECT
  deriving Repr, DecidableEq

/-- constants.ts DEFAULT_CONFIG.DEFAULT_PAGE_SIZE. -/
def DEFAULT_PAGE_SIZE : Nat := 200

/-- Engine configuration: maxTxLimit (default DEFAULT_CONFIG.MAX_TX_LIMIT =
10000). -/
structure EngineConfig where
  maxTxLimit : Nat := 10000
  deriving Repr

/-- A build task admitted to the global update queue: the subject and the
arguments of the _updateCache / _updateTokenCache call it will run. -/
structure BuildTask where
  subject : String
  totalNumTxs : Nat
  pageSize : Int
  isToken : Bool
  deriving Repr, DecidableEq

/-- An entry of the in-memory page cache: {data, expiry} (types.ts
MemoryCacheEntry). -/
structure MemoryCacheEntry where
  data : ReadCacheResult
  expiry : Int
  deriving Repr, DecidableEq

/-- The mutable state of a ChronikCache instance that the claims inspect. -/
structure EngineState where
  db : DbState
  statusMap : List (String × CacheStatus)
  tokenStatusMap : List (String × CacheStatus)
  updateLocks : List String
  tokenUpdateLocks : List String
  updateQueueTasks : List BuildTask
  addressMemoryCache : List (String × MemoryCacheEntry)
  tokenMemoryCache : List (String × MemoryCacheEntry)
  wsLog : List String
  deriving Repr, DecidableEq

/-- _isUpdating: whether the per-subject update lock is held. -/
def isUpdating (st : EngineState) (identifier : String) (isToken : Bool) : Bool :=
  (if isToken then st.tokenUpdateLocks else st.updateLocks).contains identifier

/-- _getCacheStatus: UPDATING while the lock is held, else the recorded status
defaulting to UNKNOWN. -/
def getCacheStatus (st : EngineState) (identifier : String) (isToken : Bool) : CacheStatus :=
  if isUpdating st identifier isToken then CacheStatus.UPDATING
  else
    match alistLookup (if isToken then st.tokenStatusMap else st.statusMap) identifier with
    | some s => s
    | none => CacheStatus.UNKNOWN

/-- _setCacheStatus: record a status in the per-namespace status map (the
cacheTimestamp bookkeeping only stores Date.now() and is elided). -/
def setCacheStatus (st : EngineState) (identifier : String) (s : CacheStatus)
    (isToken : Bool) : EngineState :=
  if isToken then { st with tokenStatusMap := jsObjectSet st.tokenStatusMap identifier s }
  else { st with statusMap := jsObjectSet st.statusMap identifier s }

/-- _checkTxLimit: over the limit means set REJECT and report true. -/
def checkTxLimit (cfg : EngineConfig) (st : EngineState) (identifier : String)
    (numTxs : Nat) (isToken : Bool) : Bool × EngineState :=
  if numTxs > cfg.maxTxLimit then
    (true, setCacheStatus st identifier CacheStatus.REJECT isToken)
  else (false, st)

/-- updateLocks.set(identifier, true) on the Map modelled as a key list. -/
def lockSet (locks : List String) (identifier : String) : List String :=
  if locks.contains identifier then locks else locks ++ [identifier]

/-- _checkAndUpdateCache (src/src/index.ts): reject over-limit subjects, skip
when the lock is held, else read the cache, compute the dynamic page size and
either admit a build task (taking the lock) or mark the subject LATEST and
arm the WebSocket.  The deferred Promise.resolve().then body is modelled as
running to completion directly after the synchronous checks; the admission
race inside that body is analysed separately on the Adm transition system
below. -/
def checkAndUpdateCache (cfg : EngineConfig) (st : EngineState) (address : String)
    (apiNumTxs : Nat) (pageSize : Nat) (forceUpdate : Bool) : EngineState :=
  let (rejected, st1) := checkTxLimit cfg st address apiNumTxs false
  if rejected then st1
  else if isUpdating st1 address false then st1
  else
    let (cachedData, db2) := readCache st1.db address
    let st2 := { st1 with db := db2 }
    let dps : Int :=
      match cachedData with
      | some cd =>
        let d := (apiNumTxs : Int) - (cd.numTxs : Int)
        if d < 1 then 1 else d
      | none => (pageSize : Int)
    let dynamicPageSize := if dps > 200 then 200 else dps
    let needsUpdate :=
      match cachedData with
      | none => true
      | some cd => cd.numTxs != apiNumTxs || forceUpdate
    if needsUpdate then
      { st2 with
        updateLocks := lockSet st2.updateLocks address
        updateQueueTasks := st2.updateQueueTasks ++
          [{ subject := address, totalNumTxs := apiNumTxs,
             pageSize := dynamicPageSize, isToken := false }] }
    else
      let st3 := setCacheStatus st2 address CacheStatus.LATEST false
      { st3 with wsLog := st3.wsLog ++ ["initWebsocketForAddress " ++ address] }

/-- _checkAndUpdateTokenCache: the token twin of checkAndUpdateCache. -/
def checkAndUpdateTokenCache (cfg : EngineConfig) (st : EngineState) (tokenId : String)
    (apiNumTxs : Nat) (pageSize : Nat) (forceUpdate : Bool) : EngineState :=
  let (rejected, st1) := checkTxLimit cfg st tokenId apiNumTxs true
  if rejected then st1
  else if isUpdating st1 tokenId true then st1
  else
    let (cachedData, db2) := readCache st1.db tokenId
    let st2 := { st1 with db := db2 }
    let dps : Int :=
      match cachedData with
      | some cd =>
        let d := (apiNumTxs : Int) - (cd.numTxs : Int)
        if d < 1 then 1 else d
      | none => (pageSize : Int)
    let dynamicPageSize := if dps > 200 then 200 else dps
    let needsUpdate :=
      match cachedData with
      | none => true
      | some cd => cd.numTxs != apiNumTxs || forceUpdate
    if needsUpdate then
      { st2 with
        tokenUpdateLocks := lockSet st2.tokenUpdateLocks tokenId
        updateQueueTasks := st2.updateQueueTasks ++
          [{ subject := tokenId, totalNumTxs := apiNumTxs,
             pageSize := dynamicPageSize, isToken := true }] }
    else
      let st3 := setCacheStatus st2 tokenId CacheStatus.LATEST true
      { st3 with wsLog := st3.wsLog ++ ["initWebsocketForToken " ++ tokenId] }

/-- A history response envelope (types.ts HistoryResponse): txs, numPages,
numTxs, plus the optional status and message added by the cache layer. -/
structure HistoryResponse where
  txs : List Transaction
  numPages : Nat
  numTxs : Nat
  status : Option Nat := none
  message : Option String := none
  deriving Repr, DecidableEq

/-- The chronik indexer client as consumed by the engine: paginated address
and token history and single-transaction lookup (types.ts
ChronikClientInterface).  Responses are deterministic per call site. -/
structure ChronikOracle where
  addressHistory : String → Nat → Nat → HistoryResponse
  tokenHistory : String → Nat → Nat → HistoryResponse
  txLookup : String → Option Transaction

/-- cache.txMap[key] where the source tolerates a missing key only on paths
that never dereference it; missing keys are modelled by a unit transaction. -/
def lookupTxD (m : List (String × Transaction)) (k : String) : Transaction :=
  (alistLookup m k).getD
    { txid := "", block := none, timestamp := none, timeFirstSeen := 0, isFinal := false }

/-- sortTxIds (src/src/lib/sortTxIds.ts): sort ids by the comparator; JS
engines implement a stable sort, modelled by mergeSort. -/
def sortTxIds (txIds : List String) (getTx : String → Transaction) : List String :=
  txIds.mergeSort (fun a b => sortTxCompare (getTx a) (getTx b) ≤ 0)

/-- The unconfirmed test of _updatePageUnconfirmedTxs:
!tx.block || !tx.block.height, so a height of 0 also counts as falsy. -/
def jsUnconfirmed (tx : Transaction) : Bool :=
  match tx.block with
  | none => true
  | some b => b.height == 0

/-- The confirmed test on a refetched transaction:
updatedTx && updatedTx.block && updatedTx.block.height (truthy height). -/
def jsConfirmed (tx : Transaction) : Bool :=
  match tx.block with
  | none => false
  | some b => b.height != 0

/-- _updatePageUnconfirmedTxs (src/src/index.ts): refetch every unconfirmed
transaction of the visible page; replace the ones that are now confirmed;
when anything changed, resort txOrder and persist.  Returns the updated cache
view, the database state, and the updated flag. -/
def updatePageUnconfirmedTxs (oracle : ChronikOracle) (db : DbState) (identifier : String)
    (cache : ReadCacheResult) (txsInCurrentPage : List Transaction) (isToken : Bool) :
    ReadCacheResult × DbState × Bool :=
  let unconfirmedTxids := (txsInCurrentPage.filter (fun tx => jsUnconfirmed tx)).map (fun tx => tx.txid)
  let step := unconfirmedTxids.foldl
    (fun (acc : List (String × Transaction) × Bool) txid =>
      match oracle.txLookup txid with
      | some updatedTx =>
        if jsConfirmed updatedTx then (jsObjectSet acc.1 txid updatedTx, true) else acc
      | none => acc)
    (cache.txMap, false)
  if step.2 then
    let txOrder2 := sortTxIds cache.txOrder (lookupTxD step.1)
    let (db2, _) := writeCache db identifier { txMap := step.1, txOrder := txOrder2 } isToken
    ({ cache with txMap := step.1, txOrder := txOrder2 }, db2, true)
  else (cache, db, false)

/-- The being-prepared message of getAddressHistory / getTokenHistory. -/
def preparedMsg : String :=
  "Cache is being prepared. Please wait for cache to be ready when requesting more than 200 transactions."

/-- The over-limit message of the REJECT branch. -/
def rejectMsg : String :=
  "Transaction count exceeds cache limit, serving directly from Chronik API"

/-- _getPageFromCache (src/src/index.ts): serve a page from the two-tier
cache.  now is Date.now(); rand is the Math.random() < 0.5 coin of the hash
check.  The JS cache object is aliased by the memory-cache entry, so the entry
is synchronized with every mutation; the metadata object aliased by
_writeCache is reflected by recomputing numTxs when the repair pass performed
a non-skipped write. -/
def getPageFromCache (cfg : EngineConfig) (oracle : ChronikOracle) (now : Int) (rand : Bool)
    (st : EngineState) (address : String) (pageOffset pageSize : Nat) :
    Option HistoryResponse × EngineState :=
  -- memory-cache probe, expiry check and touch
  let entry0 := alistLookup st.addressMemoryCache address
  let (entryOpt, st1) :=
    match entry0 with
    | some e =>
      if now > e.expiry then
        (none, { st with addressMemoryCache := st.addressMemoryCache.filter (fun p => p.1 != address) })
      else
        let e2 := { e with expiry := e.expiry + 10 * 1000 }
        (some e2, { st with addressMemoryCache := jsObjectSet st.addressMemoryCache address e2 })
    | none => (none, st)
  -- load the view: memory hit or durable read (inserting a fresh entry)
  let loaded : Option (ReadCacheResult × Bool) × EngineState :=
    match entryOpt with
    | some e => (some (e.data, true), st1)
    | none =>
      match readCache st1.db address with
      | (some cacheResult, db2) =>
        (some (cacheResult, true),
          { st1 with
            db := db2,
            addressMemoryCache := jsObjectSet st1.addressMemoryCache address
              { data := cacheResult, expiry := now + 120 * 1000 } })
      | (none, db2) => (none, { st1 with db := db2 })
  match loaded with
  | (none, st2) => (none, st2)
  | (some (cache0, _), st2) =>
    match getGlobalMetadata st2.db address false with
    | (none, db3) => (none, { st2 with db := db3 })
    | (some metadata, db3) =>
      let st3 := { st2 with db := db3 }
      let cache1 := { cache0 with txOrder := sortTxIds cache0.txOrder (lookupTxD cache0.txMap) }
      -- 50% hash check: mismatch forces a rebuild and drops the memory entry
      let (st4, entryLive) :=
        if rand then
          let newHash := computeHash cache1.txOrder
          if some newHash ≠ metadata.dataHash then
            let st4a := checkAndUpdateCache cfg st3 address (metadata.numTxs.getD 0)
              DEFAULT_PAGE_SIZE true
            ({ st4a with addressMemoryCache := st4a.addressMemoryCache.filter (fun p => p.1 != address) },
              false)
          else (st3, true)
        else (st3, true)
      let start := pageOffset * pageSize
      let txs := (sliceList cache1.txOrder start (start + pageSize)).map (lookupTxD cache1.txMap)
      let (cache2, db4, updated) := updatePageUnconfirmedTxs oracle st4.db address cache1 txs false
      let st5 := { st4 with db := db4 }
      let st6 :=
        if entryLive then
          { st5 with addressMemoryCache :=
              (jsObjectSet st5.addressMemoryCache address
                { data := cache2, expiry := (alistLookup st5.addressMemoryCache address).elim
                    (now + 120 * 1000) (fun e => e.expiry) }) }
        else st5
      let txs2 := (sliceList cache2.txOrder start (start + pageSize)).map (lookupTxD cache2.txMap)
      let numTxsFinal := if updated then cache2.txOrder.length else metadata.numTxs.getD 0
      (some { txs := txs2, numPages := ceilDivNat numTxsFinal pageSize, numTxs := numTxsFinal }, st6)

/-- _getTokenPageFromCache: the token twin of getPageFromCache (token memory
cache, token metadata namespace, token rebuild). -/
def getTokenPageFromCache (cfg : EngineConfig) (oracle : ChronikOracle) (now : Int) (rand : Bool)
    (st : EngineState) (tokenId : String) (pageOffset pageSize : Nat) :
    Option HistoryResponse × EngineState :=
  let entry0 := alistLookup st.tokenMemoryCache tokenId
  let (entryOpt, st1) :=
    match entry0 with
    | some e =>
      if now > e.expiry then
        (none, { st with tokenMemoryCache := st.tokenMemoryCache.filter (fun p => p.1 != tokenId) })
      else
        let e2 := { e with expiry := e.expiry + 10 * 1000 }
        (some e2, { st with tokenMemoryCache := jsObjectSet st.tokenMemoryCache tokenId e2 })
    | none => (none, st)
  let loaded : Option (ReadCacheResult × Bool) × EngineState :=
    match entryOpt with
    | some e => (some (e.data, true), st1)
    | none =>
      match readCache st1.db tokenId with
      | (some cacheResult, db2) =>
        (some (cacheResult, true),
          { st1 with
            db := db2,
            tokenMemoryCache := jsObjectSet st1.tokenMemoryCache tokenId
              { data := cacheResult, expiry := now + 120 * 1000 } })
      | (none, db2) => (none, { st1 with db := db2 })
  match loaded with
  | (none, st2) => (none, st2)
  | (some (cache0, _), st2) =>
    match getGlobalMetadata st2.db tokenId true with
    | (none, db3) => (none, { st2 with db := db3 })
    | (some metadata, db3) =>
      let st3 := { st2 with db := db3 }
      let cache1 := { cache0 with txOrder := sortTxIds cache0.txOrder (lookupTxD cache0.txMap) }
      let (st4, entryLive) :=
        if rand then
          let newHash := computeHash cache1.txOrder
          if some newHash ≠ metadata.dataHash then
            let st4a := checkAndUpdateTokenCache cfg st3 tokenId (metadata.numTxs.getD 0)
              DEFAULT_PAGE_SIZE true
            ({ st4a with tokenMemoryCache := st4a.tokenMemoryCache.filter (fun p => p.1 != tokenId) },
              false)
          else (st3, true)
        else (st3, true)
      let start := pageOffset * pageSize
      let txs := (sliceList cache1.txOrder start (start + pageSize)).map (lookupTxD cache1.txMap)
      let (cache2, db4, updated) := updatePageUnconfirmedTxs oracle st4.db tokenId cache1 txs true
      let st5 := { st4 with db := db4 }
      let st6 :=
        if entryLive then
          { st5 with tokenMemoryCache :=
              (jsObjectSet st5.tokenMemoryCache tokenId
                { data := cache2, expiry := (alistLookup st5.tokenMemoryCache tokenId).elim
                    (now + 120 * 1000) (fun e => e.expiry) }) }
        else st5
      let txs2 := (sliceList cache2.txOrder start (start + pageSize)).map (lookupTxD cache2.txMap)
      let numTxsFinal := if updated then cache2.txOrder.length else metadata.numTxs.getD 0
      (some { txs := txs2, numPages := ceilDivNat numTxsFinal pageSize, numTxs := numTxsFinal }, st6)

/-- getAddressHistory (src/src/index.ts): REJECT passthrough with status 2;
otherwise probe cache and metadata, keep the WebSocket timer fresh, and either
serve the non-LATEST flow (being-prepared envelope with status 1 for large
pages, indexer passthrough with status 3 otherwise) or the cached page with
indexer fallback.  wsActive is the getRemainingTime(...).active probe. -/
def getAddressHistory (cfg : EngineConfig) (oracle : ChronikOracle) (wsActive : Bool)
    (now : Int) (rand : Bool) (st : EngineState) (address : String)
    (pageOffset pageSize : Nat) : HistoryResponse × EngineState :=
  let currentStatus := getCacheStatus st address false
  if currentStatus == CacheStatus.REJECT then
    let result := oracle.addressHistory address pageOffset (min 200 pageSize)
    ({ result with message := some rejectMsg, status := some 2 }, st)
  else
    let apiPageSize := min 200 pageSize
    let cachePageSize := min 4000 pageSize
    let (_, db1) := readCache st.db address
    let (_, db2) := getGlobalMetadata db1 address false
    let st1 := { st with db := db2 }
    let st2 :=
      if !wsActive && currentStatus == CacheStatus.LATEST then
        { st1 with wsLog := st1.wsLog ++ ["initWebsocketForAddress " ++ address] }
      else st1
    let st3 :=
      if currentStatus == CacheStatus.LATEST then
        { st2 with wsLog := st2.wsLog ++ ["resetWsTimer " ++ address] }
      else st2
    if currentStatus != CacheStatus.LATEST then
      let apiNumTxs := (oracle.addressHistory address 0 1).numTxs
      let st4 :=
        if currentStatus != CacheStatus.UPDATING then
          checkAndUpdateCache cfg st3 address apiNumTxs DEFAULT_PAGE_SIZE false
        else st3
      if pageSize > 200 then
        ({ status := some 1, message := some preparedMsg, numTxs := 0, txs := [], numPages := 0 },
          st4)
      else
        ({ oracle.addressHistory address pageOffset apiPageSize with status := some 3 }, st4)
    else
      match getPageFromCache cfg oracle now rand st3 address pageOffset cachePageSize with
      | (some cachedResult, st4) => (cachedResult, st4)
      | (none, st4) =>
        ({ oracle.addressHistory address pageOffset apiPageSize with status := some 3 }, st4)

/-- getTokenHistory (src/src/index.ts): the token twin of getAddressHistory
(cache page size capped at 15000). -/
def getTokenHistory (cfg : EngineConfig) (oracle : ChronikOracle) (wsActive : Bool)
    (now : Int) (rand : Bool) (st : EngineState) (tokenId : String)
    (pageOffset pageSize : Nat) : HistoryResponse × EngineState :=
  let apiPageSize := min 200 pageSize
  let cachePageSize := min 15000 pageSize
  let currentStatus := getCacheStatus st tokenId true
  if currentStatus == CacheStatus.REJECT then
    let result := oracle.tokenHistory tokenId pageOffset (min 200 pageSize)
    ({ result with message := some rejectMsg, status := some 2 }, st)
  else
    let (_, db1) := readCache st.db tokenId
    let (_, db2) := getGlobalMetadata db1 tokenId true
    let st1 := { st with db := db2 }
    let st2 :=
      if !wsActive && currentStatus == CacheStatus.LATEST then
        { st1 with wsLog := st1.wsLog ++ ["initWebsocketForToken " ++ tokenId] }
      else st1
    let st3 :=
      if currentStatus == CacheStatus.LATEST then
        { st2 with wsLog := st2.wsLog ++ ["resetWsTimer " ++ tokenId] }
      else st2
    if currentStatus != CacheStatus.LATEST then
      let apiNumTxs := (oracle.tokenHistory tokenId 0 1).numTxs
      let st4 :=
        if currentStatus != CacheStatus.UPDATING then
          checkAndUpdateTokenCache cfg st3 tokenId apiNumTxs DEFAULT_PAGE_SIZE false
        else st3
      if pageSize > 200 then
        ({ status := some 1, message := some preparedMsg, numTxs := 0, txs := [], numPages := 0 },
          st4)
      else
        ({ oracle.tokenHistory tokenId pageOffset apiPageSize with status := some 3 }, st4)
    else
      match getTokenPageFromCache cfg oracle now rand st3 tokenId pageOffset cachePageSize with
      | (some cachedResult, st4) => (cachedResult, st4)
      | (none, st4) =>
        ({ oracle.tokenHistory tokenId pageOffset apiPageSize with status := some 3 }, st4)

/- ------------------------------------------------------------------
Admission protocol for build tasks (claim C4).  _checkAndUpdateCache performs
its lock check synchronously, then defers the rest of the work with
Promise.resolve().then; inside that deferred body it awaits _readCache BEFORE
taking the update lock and calling updateQueue.enqueue (TaskQueue.ts lines
29-34 push the task FIFO).  On the JS event loop, execution can therefore
interleave between the lock check and the lock acquisition.  The transition
system below models exactly that structure: invoke is the synchronous part of
a call (the needs-update outcome the later read will produce is supplied by
the environment), runBody resumes one deferred body after its await, and
finishTask is the finally block of an admitted task completing.
------------------------------------------------------------------ -/

/-- A deferred _checkAndUpdateCache body that passed the synchronous lock
check and has not yet resumed after its await of _readCache. -/
structure AdmPending where
  subject : String
  needsUpdate : Bool
  deriving Repr, DecidableEq

/-- State of the admission protocol: held update locks, build tasks admitted
to the update queue and not yet finished, and deferred bodies in flight. -/
structure AdmState where
  locks : List String
  admitted : List String
  micro : List AdmPending
  deriving Repr, DecidableEq

/-- Events of the admission protocol. -/
inductive AdmStep where
  | invoke (subject : String) (needsUpdate : Bool)
  | runBody (i : Nat)
  | finishTask (subject : String)
  deriving Repr, DecidableEq

/-- One step of the interleaved admission semantics. -/
def admStep (st : AdmState) (step : AdmStep) : AdmState :=
  match step with
  | AdmStep.invoke s needs =>
    if st.locks.contains s then st
    else { st with micro := st.micro ++ [{ subject := s, needsUpdate := needs }] }
  | AdmStep.runBody i =>
    match st.micro.get? i with
    | some p =>
      let rest := st.micro.eraseIdx i
      if p.needsUpdate then
        { locks := lockSet st.locks p.subject,
          admitted := st.admitted ++ [p.subject],
          micro := rest }
      else { st with micro := rest }
    | none => st
  | AdmStep.finishTask s =>
    if st.admitted.contains s then
      { st with admitted := st.admitted.erase s, locks := st.locks.filter (fun x => x != s) }
    else st

/-- Run the interleaved admission semantics from the initial (empty) engine
state. -/
def admRun (steps : List AdmStep) : AdmState :=
  steps.foldl admStep { locks := [], admitted := [], micro := [] }

/- ------------------------------------------------------------------
Notification manager (src/src/lib/WebSocketManager.ts): the two subscription
registries with FIFO capacity eviction.  The SubscriptionData payload holds
the event callback and timer handles, which do not influence the capacity
behaviour and are elided; a registry is its insertion-ordered key list.
------------------------------------------------------------------ -/

/-- Subscription registries of WebSocketManager. -/
structure WsState where
  addressSubscriptions : List String
  tokenSubscriptions : List String
  deriving Repr, DecidableEq

/-- The eviction loop of initWebsocketForAddress / initWebsocketForToken
(lines 184-187 and 213-216): while the registry size is at least
maxSubscriptions, evict the oldest entry.  Returns the remaining registry and
the evicted subjects in order; each evicted subject triggers exactly one
onEvict callback (_evictOldestAddressSubscription lines 358-368).  With
maxSubscriptions = 0 the source loop would never terminate on an empty
registry; the model returns. -/
def evictWhileFull (maxSubscriptions : Nat) : List String → List String × List String
  | [] => ([], [])
  | x :: xs =>
    if (x :: xs).length ≥ maxSubscriptions then
      let r := evictWhileFull maxSubscriptions xs
      (r.1, x :: r.2)
    else (x :: xs, [])

/-- initWebsocketForAddress (lines 176-203): no-op when already subscribed,
else evict to capacity and insert.  Returns the evicted subjects. -/
def initWsForAddress (maxSubscriptions : Nat) (st : WsState) (address : String) :
    WsState × List String :=
  if st.addressSubscriptions.contains address then (st, [])
  else
    let r := evictWhileFull maxSubscriptions st.addressSubscriptions
    ({ st with addressSubscriptions := r.1 ++ [address] }, r.2)

/-- initWebsocketForToken (lines 205-232): the token twin. -/
def initWsForToken (maxSubscriptions : Nat) (st : WsState) (tokenId : String) :
    WsState × List String :=
  if st.tokenSubscriptions.contains tokenId then (st, [])
  else
    let r := evictWhileFull maxSubscriptions st.tokenSubscriptions
    ({ st with tokenSubscriptions := r.1 ++ [tokenId] }, r.2)

/-- unsubscribeAddress (lines 234-256): remove the subscription (transport
close once empty elided). -/
def unsubscribeAddress (st : WsState) (address : String) : WsState :=
  { st with addressSubscriptions := st.addressSubscriptions.filter (fun x => x != address) }

/-- unsubscribeToken (lines 258-280): the token twin. -/
def unsubscribeToken (st : WsState) (tokenId : String) : WsState :=
  { st with tokenSubscriptions := st.tokenSubscriptions.filter (fun x => x != tokenId) }

/-- Attach/detach operations on the manager. -/
inductive WsOp where
  | attachAddress (a : String)
  | attachToken (t : String)
  | detachAddress (a : String)
  | detachToken (t : String)
  deriving Repr, DecidableEq

/-- One operation; evicted subjects are reported tagged with their namespace
(true = token), one entry per onEvict invocation. -/
def wsStep (maxSubscriptions : Nat) (st : WsState) (op : WsOp) :
    WsState × List (String × Bool) :=
  match op with
  | WsOp.attachAddress a =>
    let r := initWsForAddress maxSubscriptions st a
    (r.1, r.2.map (fun s => (s, false)))
  | WsOp.attachToken t =>
    let r := initWsForToken maxSubscriptions st t
    (r.1, r.2.map (fun s => (s, true)))
  | WsOp.detachAddress a => (unsubscribeAddress st a, [])
  | WsOp.detachToken t => (unsubscribeToken st t, [])

/-- Run a sequence of operations from the empty manager, accumulating the
onEvict events. -/
def wsRun (maxSubscriptions : Nat) (ops : List WsOp) : WsState × List (String × Bool) :=
  ops.foldl
    (fun acc op =>
      let r := wsStep maxSubscriptions acc.1 op
      (r.1, acc.2 ++ r.2))
    ({ addressSubscriptions := [], tokenSubscriptions := [] }, [])

/- ==================================================================
Theorems.
================================================================== -/

theorem jsOrBool_default_true (v : Option Bool) : jsOrBool v true = true := by
  cases v with
  | none => rfl
  | some b => cases b <;> rfl

theorem alistLookup_jsObjectSet_same {α : Type} (m : List (String × α)) (k : String) (v : α) :
    alistLookup (jsObjectSet m k v) k = some v := by
  induction m with
  | nil => simp [jsObjectSet, alistLookup]
  | cons p ps ih =>
    by_cases h : p.1 == k
    · simp [jsObjectSet, h, alistLookup]
    · simp only [jsObjectSet, h, if_false, Bool.false_eq_true, ite_false]
      simpa [alistLookup, List.find?_cons, h] using ih

/-- C10: for every construction options object — including one that sets
failoverOptions.exponentialBackoff explicitly to false — the FailoverHandler's
exponentialBackoff flag is true (options.exponentialBackoff || true), so the
delay before every retry is always retryDelay * 2^(attempt-1); the constant
delay branch of executeWithRetry is unreachable through configuration. -/
theorem failover_exponentialBackoff_always_true (options : FailoverOptions) (attempt : Nat) :
    (FailoverHandler.ofOptions options).exponentialBackoff = true ∧
    (FailoverHandler.ofOptions
      { options with exponentialBackoff := some false }).exponentialBackoff = true ∧
    (FailoverHandler.ofOptions options).delayAt attempt =
      (FailoverHandler.ofOptions options).retryDelay * 2 ^ (attempt - 1) := by
  refine ⟨?_, ?_, ?_⟩
  · simpa [FailoverHandler.ofOptions] using jsOrBool_default_true options.exponentialBackoff
  · simpa [FailoverHandler.ofOptions] using jsOrBool_default_true (some false)
  · simp [FailoverHandler.delayAt, FailoverHandler.ofOptions, jsOrBool_default_true]

/-- C5: the sort comparator of sortTxIds orders newest first exactly as the
specification describes it: both transactions without block.height compare by
larger timestamp (missing treated as 0) then larger timeFirstSeen; a single
transaction without block.height comes first; both with block.height compare
by larger height, then larger block timestamp, then larger timeFirstSeen. -/
theorem sortTxCompare_matches_spec (txA txB : Transaction) :
    (sortTxCompare txA txB < 0 ↔ specTxCompare txA txB < 0) ∧
    (sortTxCompare txA txB = 0 ↔ specTxCompare txA txB = 0) ∧
    (0 < sortTxCompare txA txB ↔ 0 < specTxCompare txA txB) := by
  obtain ⟨_, bA, tsA, tfsA, _⟩ := txA
  obtain ⟨_, bB, tsB, tfsB, _⟩ := txB
  cases bA <;> cases bB <;> simp only [sortTxCompare, specTxCompare] <;>
    try split_ifs <;> refine ⟨?_, ?_, ?_⟩ <;>
      first
      | omega
      | (rw [iff_false]; omega)
  all_goals trivial

/- Concrete fixtures used by witnesses and counterexamples. -/

/-- The engine state right after construction: everything empty. -/
def emptyEngineState : EngineState where
  db := { store := [], metaCache := [] }
  statusMap := []
  tokenStatusMap := []
  updateLocks := []
  tokenUpdateLocks := []
  updateQueueTasks := []
  addressMemoryCache := []
  tokenMemoryCache := []
  wsLog := []

/-- A deterministic indexer fixture. -/
def cxOracle : ChronikOracle where
  addressHistory := fun _ _ _ => { txs := [], numPages := 7, numTxs := 42 }
  tokenHistory := fun _ _ _ => { txs := [], numPages := 7, numTxs := 42 }
  txLookup := fun _ => none

/-- An engine state whose subject S is recorded REJECT in both namespaces. -/
def rejectEngineState : EngineState :=
  { emptyEngineState with
    statusMap := [("S", CacheStatus.REJECT)]
    tokenStatusMap := [("S", CacheStatus.REJECT)] }

/-- C1: for every subject and every probed count apiNumTxs strictly above the
configured maxTxLimit, checkAndUpdate records REJECT for the subject and
returns without admitting a build task to the update queue and without
touching the durable store (both for the address and the token engine). -/
theorem checkAndUpdateCache_over_limit_rejects
    (cfg : EngineConfig) (st : EngineState) (subject : String)
    (apiNumTxs pageSize : Nat) (forceUpdate : Bool)
    (h : apiNumTxs > cfg.maxTxLimit) :
    (alistLookup (checkAndUpdateCache cfg st subject apiNumTxs pageSize forceUpdate).statusMap
        subject = some CacheStatus.REJECT ∧
      (checkAndUpdateCache cfg st subject apiNumTxs pageSize forceUpdate).updateQueueTasks =
        st.updateQueueTasks ∧
      (checkAndUpdateCache cfg st subject apiNumTxs pageSize forceUpdate).db.store =
        st.db.store) ∧
    (alistLookup
        (checkAndUpdateTokenCache cfg st subject apiNumTxs pageSize forceUpdate).tokenStatusMap
        subject = some CacheStatus.REJECT ∧
      (checkAndUpdateTokenCache cfg st subject apiNumTxs pageSize forceUpdate).updateQueueTasks =
        st.updateQueueTasks ∧
      (checkAndUpdateTokenCache cfg st subject apiNumTxs pageSize forceUpdate).db.store =
        st.db.store) := by
  have hA : checkAndUpdateCache cfg st subject apiNumTxs pageSize forceUpdate =
      setCacheStatus st subject CacheStatus.REJECT false := by
    simp [checkAndUpdateCache, checkTxLimit, h]
  have hT : checkAndUpdateTokenCache cfg st subject apiNumTxs pageSize forceUpdate =
      setCacheStatus st subject CacheStatus.REJECT true := by
    simp [checkAndUpdateTokenCache, checkTxLimit, h]
  rw [hA, hT]
  simp [setCacheStatus, alistLookup_jsObjectSet_same]

/-- Witness for C1 at a concrete over-limit input. -/
theorem checkAndUpdateCache_over_limit_rejects_witness :
    10001 > ({} : EngineConfig).maxTxLimit ∧
    ((alistLookup (checkAndUpdateCache {} emptyEngineState "s" 10001 200 false).statusMap
        "s" = some CacheStatus.REJECT ∧
      (checkAndUpdateCache {} emptyEngineState "s" 10001 200 false).updateQueueTasks =
        emptyEngineState.updateQueueTasks ∧
      (checkAndUpdateCache {} emptyEngineState "s" 10001 200 false).db.store =
        emptyEngineState.db.store) ∧
    (alistLookup
        (checkAndUpdateTokenCache {} emptyEngineState "s" 10001 200 false).tokenStatusMap
        "s" = some CacheStatus.REJECT ∧
      (checkAndUpdateTokenCache {} emptyEngineState "s" 10001 200 false).updateQueueTasks =
        emptyEngineState.updateQueueTasks ∧
      (checkAndUpdateTokenCache {} emptyEngineState "s" 10001 200 false).db.store =
        emptyEngineState.db.store)) :=
  ⟨by decide, checkAndUpdateCache_over_limit_rejects {} emptyEngineState "s" 10001 200 false
    (by decide)⟩

/-- C4: a failing execution of the admission protocol.  Two checkAndUpdate
invocations for subject S both pass the synchronous lock check before either
deferred body resumes; each body then takes the lock and enqueues, so two
build tasks for S are admitted to the update queue — the single-writer
discipline the specification asserts is violated by this reachable
interleaving. -/
theorem admission_race_admits_two_builds :
    (admRun [AdmStep.invoke "S" true, AdmStep.invoke "S" true,
             AdmStep.runBody 0, AdmStep.runBody 0]).admitted = ["S", "S"] ∧
    ((admRun [AdmStep.invoke "S" true, AdmStep.invoke "S" true,
              AdmStep.runBody 0, AdmStep.runBody 0]).admitted.count "S") = 2 := by
  constructor
  · rfl
  · rfl

/-- C3 counterexample: a subject in state REJECT (a state that is not LATEST)
with pageSize 8000 is answered by the over-limit envelope with status 2, not
by the status-1 being-prepared envelope the claim demands for every
non-LATEST state. -/
theorem getAddressHistory_reject_page_cx :
    getCacheStatus rejectEngineState "S" false ≠ CacheStatus.LATEST ∧
    8000 > 200 ∧
    (getAddressHistory {} cxOracle false 0 false rejectEngineState "S" 0 8000).1.status =
      some 2 ∧
    (getAddressHistory {} cxOracle false 0 false rejectEngineState "S" 0 8000).1.status ≠
      some 1 := by
  refine ⟨by decide, by decide, rfl, by decide⟩

/-- C3 (amended: the state is neither LATEST nor REJECT): on that branch a
pageSize above 200 is answered by exactly the status-1 being-prepared envelope
with empty txs and zero counts, and a pageSize of at most 200 is answered by
the indexer result tagged with status 3 — for addresses and for tokens. -/
theorem getHistory_nonlatest_envelopes
    (cfg : EngineConfig) (oracle : ChronikOracle) (wsActive : Bool) (now : Int) (rand : Bool)
    (st : EngineState) (subject : String) (pageOffset pageSize : Nat)
    (hA1 : getCacheStatus st subject false ≠ CacheStatus.LATEST)
    (hA2 : getCacheStatus st subject false ≠ CacheStatus.REJECT)
    (hT1 : getCacheStatus st subject true ≠ CacheStatus.LATEST)
    (hT2 : getCacheStatus st subject true ≠ CacheStatus.REJECT) :
    strContains preparedMsg "being prepared" = true ∧
    (200 < pageSize →
      (getAddressHistory cfg oracle wsActive now rand st subject pageOffset pageSize).1 =
        { status := some 1, message := some preparedMsg, txs := [], numPages := 0,
          numTxs := 0 } ∧
      (getTokenHistory cfg oracle wsActive now rand st subject pageOffset pageSize).1 =
        { status := some 1, message := some preparedMsg, txs := [], numPages := 0,
          numTxs := 0 }) ∧
    (pageSize ≤ 200 →
      (getAddressHistory cfg oracle wsActive now rand st subject pageOffset pageSize).1 =
        { oracle.addressHistory subject pageOffset (min 200 pageSize) with status := some 3 } ∧
      (getTokenHistory cfg oracle wsActive now rand st subject pageOffset pageSize).1 =
        { oracle.tokenHistory subject pageOffset (min 200 pageSize) with status := some 3 }) := by
  refine ⟨by decide, ?_, ?_⟩
  · intro hp
    constructor
    · simp [getAddressHistory, hA1, hA2, hp, Nat.not_le.mpr hp]
    · simp [getTokenHistory, hT1, hT2, hp, Nat.not_le.mpr hp]
  · intro hp
    constructor
    · simp [getAddressHistory, hA1, hA2, Nat.not_lt.mpr hp]
    · simp [getTokenHistory, hT1, hT2, Nat.not_lt.mpr hp]

/-- Witness for C3 on a fresh (UNKNOWN) subject. -/
theorem getHistory_nonlatest_envelopes_witness :
    getCacheStatus emptyEngineState "s" false ≠ CacheStatus.LATEST ∧
    getCacheStatus emptyEngineState "s" false ≠ CacheStatus.REJECT ∧
    getCacheStatus emptyEngineState "s" true ≠ CacheStatus.LATEST ∧
    getCacheStatus emptyEngineState "s" true ≠ CacheStatus.REJECT ∧
    (strContains preparedMsg "being prepared" = true ∧
    (200 < 8000 →
      (getAddressHistory {} cxOracle false 0 false emptyEngineState "s" 0 8000).1 =
        { status := some 1, message := some preparedMsg, txs := [], numPages := 0,
          numTxs := 0 } ∧
      (getTokenHistory {} cxOracle false 0 false emptyEngineState "s" 0 8000).1 =
        { status := some 1, message := some preparedMsg, txs := [], numPages := 0,
          numTxs := 0 }) ∧
    (8000 ≤ 200 →
      (getAddressHistory {} cxOracle false 0 false emptyEngineState "s" 0 8000).1 =
        { cxOracle.addressHistory "s" 0 (min 200 8000) with status := some 3 } ∧
      (getTokenHistory {} cxOracle false 0 false emptyEngineState "s" 0 8000).1 =
        { cxOracle.tokenHistory "s" 0 (min 200 8000) with status := some 3 })) :=
  ⟨by decide, by decide, by decide, by decide,
    getHistory_nonlatest_envelopes {} cxOracle false 0 false emptyEngineState "s" 0 8000
      (by decide) (by decide) (by decide) (by decide)⟩

theorem evictWhileFull_length_lt (maxSubs : Nat) (hmax : 1 ≤ maxSubs) (l : List String) :
    (evictWhileFull maxSubs l).1.length < maxSubs := by
  induction l with
  | nil => simpa [evictWhileFull] using hmax
  | cons x xs ih =>
    rw [evictWhileFull]
    split
    · simpa using ih
    · next h =>
      simp only [List.length_cons, ge_iff_le, not_le] at h
      simpa using h

theorem evictWhileFull_at_capacity (maxSubs : Nat) (hmax : 1 ≤ maxSubs) (l : List String)
    (hl : l.length = maxSubs) :
    evictWhileFull maxSubs l = (l.drop 1, l.take 1) := by
  cases l with
  | nil => simp at hl; omega
  | cons x xs =>
    have hc : maxSubs ≤ xs.length + 1 := by
      simp at hl
      omega
    cases xs with
    | nil =>
      have h1 : maxSubs ≤ 1 := by
        simp at hl
        omega
      simp [evictWhileFull, h1]
    | cons y ys =>
      have h1 : maxSubs ≤ ys.length + 1 + 1 := by
        simp at hl
        omega
      have h2 : ¬ maxSubs ≤ ys.length + 1 := by
        simp at hl
        omega
      simp [evictWhileFull, h1, h2]

theorem wsStep_preserves_cap (maxSubs : Nat) (hmax : 1 ≤ maxSubs) (st : WsState) (op : WsOp)
    (ha : st.addressSubscriptions.length ≤ maxSubs)
    (ht : st.tokenSubscriptions.length ≤ maxSubs) :
    (wsStep maxSubs st op).1.addressSubscriptions.length ≤ maxSubs ∧
    (wsStep maxSubs st op).1.tokenSubscriptions.length ≤ maxSubs := by
  cases op with
  | attachAddress a =>
    by_cases hm : a ∈ st.addressSubscriptions
    · simp [wsStep, initWsForAddress, hm, ha, ht]
    · have := evictWhileFull_length_lt maxSubs hmax st.addressSubscriptions
      simp [wsStep, initWsForAddress, hm, ht]
      omega
  | attachToken t =>
    by_cases hm : t ∈ st.tokenSubscriptions
    · simp [wsStep, initWsForToken, hm, ha, ht]
    · have := evictWhileFull_length_lt maxSubs hmax st.tokenSubscriptions
      simp [wsStep, initWsForToken, hm, ha]
      omega
  | detachAddress a =>
    refine ⟨?_, by simpa [wsStep, unsubscribeAddress] using ht⟩
    have := List.length_filter_le (fun x => x != a) st.addressSubscriptions
    simp only [wsStep, unsubscribeAddress]
    omega
  | detachToken t =>
    refine ⟨by simpa [wsStep, unsubscribeToken] using ha, ?_⟩
    have := List.length_filter_le (fun x => x != t) st.tokenSubscriptions
    simp only [wsStep, unsubscribeToken]
    omega

theorem wsRun_cap_aux (maxSubs : Nat) (hmax : 1 ≤ maxSubs) :
    ∀ (ops : List WsOp) (acc : WsState × List (String × Bool)),
      acc.1.addressSubscriptions.length ≤ maxSubs →
      acc.1.tokenSubscriptions.length ≤ maxSubs →
      ((ops.foldl
          (fun acc op =>
            let r := wsStep maxSubs acc.1 op
            (r.1, acc.2 ++ r.2)) acc).1.addressSubscriptions.length ≤ maxSubs ∧
       (ops.foldl
          (fun acc op =>
            let r := wsStep maxSubs acc.1 op
            (r.1, acc.2 ++ r.2)) acc).1.tokenSubscriptions.length ≤ maxSubs) := by
  intro ops
  induction ops with
  | nil => intro acc ha ht; exact ⟨ha, ht⟩
  | cons op ops ih =>
    intro acc ha ht
    have h2 := wsStep_preserves_cap maxSubs hmax acc.1 op ha ht
    exact ih _ h2.1 h2.2

/-- C8: with maxSubscriptions ≥ 1 (default 30): (1) starting from the empty
manager, the address and token subscription registries never exceed
maxSubscriptions after any sequence of attach/detach operations; (2) an
attach performed at capacity evicts exactly the oldest-inserted entry and
reports exactly one eviction (one onEvict invocation); (3) attaching an
already-attached subject leaves the manager unchanged and evicts nothing. -/
theorem wsManager_subscription_cap (maxSubscriptions : Nat) (hmax : 1 ≤ maxSubscriptions) :
    (∀ ops : List WsOp,
      (wsRun maxSubscriptions ops).1.addressSubscriptions.length ≤ maxSubscriptions ∧
      (wsRun maxSubscriptions ops).1.tokenSubscriptions.length ≤ maxSubscriptions) ∧
    (∀ (st : WsState) (a : String),
      st.addressSubscriptions.contains a = false →
      st.addressSubscriptions.length = maxSubscriptions →
      initWsForAddress maxSubscriptions st a =
        ({ st with addressSubscriptions := st.addressSubscriptions.drop 1 ++ [a] },
          st.addressSubscriptions.take 1)) ∧
    (∀ (st : WsState) (t : String),
      st.tokenSubscriptions.contains t = false →
      st.tokenSubscriptions.length = maxSubscriptions →
      initWsForToken maxSubscriptions st t =
        ({ st with tokenSubscriptions := st.tokenSubscriptions.drop 1 ++ [t] },
          st.tokenSubscriptions.take 1)) ∧
    (∀ (st : WsState) (a : String),
      st.addressSubscriptions.contains a = true →
      initWsForAddress maxSubscriptions st a = (st, [])) ∧
    (∀ (st : WsState) (t : String),
      st.tokenSubscriptions.contains t = true →
      initWsForToken maxSubscriptions st t = (st, [])) := by
  refine ⟨?_, ?_, ?_, ?_, ?_⟩
  · intro ops
    exact wsRun_cap_aux maxSubscriptions hmax ops _ (by simp) (by simp)
  · intro st a hmem hlen
    have hm : a ∉ st.addressSubscriptions := by simpa using hmem
    simp [initWsForAddress, hm, evictWhileFull_at_capacity maxSubscriptions hmax _ hlen]
  · intro st t hmem hlen
    have hm : t ∉ st.tokenSubscriptions := by simpa using hmem
    simp [initWsForToken, hm, evictWhileFull_at_capacity maxSubscriptions hmax _ hlen]
  · intro st a hmem
    have hm : a ∈ st.addressSubscriptions := by simpa using hmem
    simp [initWsForAddress, hm]
  · intro st t hmem
    have hm : t ∈ st.tokenSubscriptions := by simpa using hmem
    simp [initWsForToken, hm]

/-- Witness for C8 at maxSubscriptions = 2. -/
theorem wsManager_subscription_cap_witness :
    1 ≤ 2 ∧
    ((∀ ops : List WsOp,
      (wsRun 2 ops).1.addressSubscriptions.length ≤ 2 ∧
      (wsRun 2 ops).1.tokenSubscriptions.length ≤ 2) ∧
    (∀ (st : WsState) (a : String),
      st.addressSubscriptions.contains a = false →
      st.addressSubscriptions.length = 2 →
      initWsForAddress 2 st a =
        ({ st with addressSubscriptions := st.addressSubscriptions.drop 1 ++ [a] },
          st.addressSubscriptions.take 1)) ∧
    (∀ (st : WsState) (t : String),
      st.tokenSubscriptions.contains t = false →
      st.tokenSubscriptions.length = 2 →
      initWsForToken 2 st t =
        ({ st with tokenSubscriptions := st.tokenSubscriptions.drop 1 ++ [t] },
          st.tokenSubscriptions.take 1)) ∧
    (∀ (st : WsState) (a : String),
      st.addressSubscriptions.contains a = true →
      initWsForAddress 2 st a = (st, [])) ∧
    (∀ (st : WsState) (t : String),
      st.tokenSubscriptions.contains t = true →
      initWsForToken 2 st t = (st, []))) :=
  ⟨by decide, wsManager_subscription_cap 2 (by decide)⟩

theorem storeGet_storePut_same (s : Store) (k : DbKey) (v : DbValue) :
    storeGet (storePut s k v) k = some v := by
  simp [storeGet, storePut]

theorem alistLookup_append_of_no_key {α : Type} (l r : List (String × α)) (key : String)
    (h : ∀ p ∈ l, (p.1 == key) = false) :
    alistLookup (l ++ r) key = alistLookup r key := by
  induction l with
  | nil => rfl
  | cons x xs ih =>
    have hx := h x (by simp)
    have e : alistLookup ((x :: xs) ++ r) key = alistLookup (xs ++ r) key := by
      simp only [List.cons_append, alistLookup, List.find?, hx]
      rfl
    rw [e]
    exact ih (fun p hp => h p (by simp [hp]))

theorem filter_ne_no_key {α : Type} (l : List (String × α)) (key : String) :
    ∀ p ∈ l.filter (fun p => p.1 != key), (p.1 == key) = false := by
  intro p hp
  have h := (List.mem_filter.mp hp).2
  simpa [bne] using h

theorem alistLookup_maintainLimit_last (l : List (String × CacheMetadata)) (key : String)
    (md : CacheMetadata) (h : ∀ p ∈ l, (p.1 == key) = false) :
    alistLookup (maintainLimit (l ++ [(key, md)])) key = some md := by
  induction l with
  | nil => simp [maintainLimit, GLOBAL_METADATA_CACHE_LIMIT, alistLookup]
  | cons x xs ih =>
    have e : (x :: xs) ++ [(key, md)] = x :: (xs ++ [(key, md)]) := rfl
    rw [e, maintainLimit]
    split
    · exact ih (fun p hp => h p (by simp [hp]))
    · have h2 := alistLookup_append_of_no_key (x :: xs) [(key, md)] key h
      rw [← e, h2]
      simp [alistLookup]

theorem getGlobalMetadata_store (st : DbState) (id : String) (tok : Bool) :
    (getGlobalMetadata st id tok).2.store = st.store := by
  unfold getGlobalMetadata
  cases h : alistLookup st.metaCache (globalKey id tok) with
  | some md => simp [h]
  | none =>
    cases h3 : storeGet st.store (DbKey.metadataOf (globalKey id tok)) with
    | none => simp [h, h3]
    | some v => cases v <;> simp [h, h3]

theorem getGlobalMetadata_after_update (st : DbState) (id : String) (md : CacheMetadata)
    (tok : Bool) :
    (getGlobalMetadata (updateGlobalMetadata st id md tok) id tok).1 = some md := by
  unfold getGlobalMetadata updateGlobalMetadata
  have h := alistLookup_maintainLimit_last
    (st.metaCache.filter (fun p => p.1 != globalKey id tok)) (globalKey id tok) md
    (filter_ne_no_key _ _)
  simp [h]

theorem getGlobalMetadata_stable (st : DbState) (id : String) (tok : Bool) :
    (getGlobalMetadata (getGlobalMetadata st id tok).2 id tok).1 =
      (getGlobalMetadata st id tok).1 := by
  cases h : alistLookup st.metaCache (globalKey id tok) with
  | some md =>
    have hno := filter_ne_no_key st.metaCache (globalKey id tok)
    have h2 : alistLookup
        (st.metaCache.filter (fun p => p.1 != globalKey id tok) ++ [(globalKey id tok, md)])
        (globalKey id tok) = some md := by
      rw [alistLookup_append_of_no_key _ _ _ hno]
      simp [alistLookup]
    rw [getGlobalMetadata, getGlobalMetadata, h]
    simp [h2]
  | none =>
    cases h3 : storeGet st.store (DbKey.metadataOf (globalKey id tok)) with
    | none =>
      rw [getGlobalMetadata, getGlobalMetadata, h]
      simp [h3, h]
    | some v =>
      cases v with
      | metadata md =>
        have h6 : st.metaCache.find? (fun p => p.1 == globalKey id tok) = none := by
          simpa [alistLookup] using h
        have hno : ∀ p ∈ st.metaCache, (p.1 == globalKey id tok) = false := by
          intro p hp
          have h5 := List.find?_eq_none.mp h6 p hp
          simpa using h5
        have h4 := alistLookup_maintainLimit_last st.metaCache (globalKey id tok) md hno
        rw [getGlobalMetadata, getGlobalMetadata, h]
        simp [h3, h4]
      | order l2 =>
        rw [getGlobalMetadata, getGlobalMetadata, h]
        simp [h3, h]
      | txmap m2 =>
        rw [getGlobalMetadata, getGlobalMetadata, h]
        simp [h3, h]
      | meta a b =>
        rw [getGlobalMetadata, getGlobalMetadata, h]
        simp [h3, h]

theorem computeHash_ne_empty (l : List String) : computeHash l ≠ "" := by
  intro h
  have h2 := congrArg String.length h
  rw [computeHash, jsonOfList] at h2
  simp [String.length_append] at h2
  exact absurd h2.2 (by decide)

theorem writeSkips_of_hash (md : CacheMetadata) (newHash : String)
    (h : md.dataHash = some newHash) (hne : newHash ≠ "") :
    writeSkips (some md) newHash = true := by
  simp [writeSkips, h, hne]

theorem writeCache_of_skip (st : DbState) (id : String) (d : CacheData) (tok : Bool)
    (h : writeSkips (getGlobalMetadata st id tok).1 (computeHash d.txOrder) = true) :
    writeCache st id d tok = ((getGlobalMetadata st id tok).2, []) := by
  unfold writeCache
  rcases hg : getGlobalMetadata st id tok with ⟨mdOpt, stG⟩
  rw [hg] at h
  simp at h
  simp [h]

theorem writeCache_of_write (st : DbState) (id : String) (d : CacheData) (tok : Bool)
    (h : writeSkips (getGlobalMetadata st id tok).1 (computeHash d.txOrder) = false) :
    ∃ md : CacheMetadata,
      (getGlobalMetadata (writeCache st id d tok).1 id tok).1 = some md ∧
      storeGet (writeCache st id d tok).1.store
        (DbKey.metadataOf (globalKey id tok)) = some (DbValue.metadata md) ∧
      md.dataHash = some (computeHash d.txOrder) ∧
      md.numTxs = some d.txOrder.length := by
  unfold writeCache
  rcases hg : getGlobalMetadata st id tok with ⟨mdOpt, stG⟩
  rw [hg] at h
  simp only at h
  simp only [h, Bool.false_eq_true, if_false]
  refine ⟨_, getGlobalMetadata_after_update _ id _ tok, ?_, rfl, rfl⟩
  simp only [updateGlobalMetadata]
  exact storeGet_storePut_same _ _ _

/-- C6: a write immediately repeated with the same data performs no
durable-store puts and leaves the durable store unchanged: the hash of
data.txOrder now matches the stored metadata.dataHash, so the second
_writeCache call takes the skip branch. -/
theorem writeCache_idempotent (st : DbState) (id : String) (d : CacheData) (isToken : Bool) :
    (writeCache (writeCache st id d isToken).1 id d isToken).2 = [] ∧
    (writeCache (writeCache st id d isToken).1 id d isToken).1.store =
      (writeCache st id d isToken).1.store := by
  by_cases hsk : writeSkips (getGlobalMetadata st id isToken).1 (computeHash d.txOrder) = true
  · have e1 := writeCache_of_skip st id d isToken hsk
    rw [e1]
    have hsk2 : writeSkips (getGlobalMetadata (getGlobalMetadata st id isToken).2 id isToken).1
        (computeHash d.txOrder) = true := by
      rw [getGlobalMetadata_stable]
      exact hsk
    have e2 := writeCache_of_skip _ id d isToken hsk2
    rw [e2]
    exact ⟨rfl, getGlobalMetadata_store _ id isToken⟩
  · have h2 : writeSkips (getGlobalMetadata st id isToken).1 (computeHash d.txOrder) = false := by
      simpa using hsk
    obtain ⟨md, hmd1, _, hmd3, _⟩ := writeCache_of_write st id d isToken h2
    have hsk2 : writeSkips (getGlobalMetadata (writeCache st id d isToken).1 id isToken).1
        (computeHash d.txOrder) = true := by
      rw [hmd1]
      exact writeSkips_of_hash md _ hmd3 (computeHash_ne_empty _)
    have e2 := writeCache_of_skip _ id d isToken hsk2
    rw [e2]
    exact ⟨rfl, getGlobalMetadata_store _ id isToken⟩

/-- A concrete transaction fixture. -/
def demoTx : Transaction where
  txid := "t"
  block := none
  timestamp := none
  timeFirstSeen := 1
  isFinal := false

/-- The empty database state. -/
def emptyDbState : DbState where
  store := []
  metaCache := []

/-- C7: immediately after every successful, non-skipped write, the stored
metadata for the subject satisfies dataHash = hash(data.txOrder) and
numTxs = len(data.txOrder); the same record is what the metadata read path
returns. -/
theorem writeCache_metadata_consistent (st : DbState) (id : String) (d : CacheData)
    (isToken : Bool)
    (h : writeSkips (getGlobalMetadata st id isToken).1 (computeHash d.txOrder) = false) :
    ∃ md : CacheMetadata,
      storeGet (writeCache st id d isToken).1.store (DbKey.metadataOf (globalKey id isToken)) =
        some (DbValue.metadata md) ∧
      (getGlobalMetadata (writeCache st id d isToken).1 id isToken).1 = some md ∧
      md.dataHash = some (computeHash d.txOrder) ∧
      md.numTxs = some d.txOrder.length := by
  obtain ⟨md, h1, h2, h3, h4⟩ := writeCache_of_write st id d isToken h
  exact ⟨md, h2, h1, h3, h4⟩

/-- A one-transaction cache data fixture. -/
def demoData : CacheData where
  txMap := [("t", demoTx)]
  txOrder := ["t"]

/-- Witness for C7: a fresh subject written with one transaction. -/
theorem writeCache_metadata_consistent_witness :
    writeSkips (getGlobalMetadata emptyDbState "a" false).1
      (computeHash demoData.txOrder) = false ∧
    (∃ md : CacheMetadata,
      storeGet (writeCache emptyDbState "a" demoData false).1.store
        (DbKey.metadataOf (globalKey "a" false)) = some (DbValue.metadata md) ∧
      (getGlobalMetadata (writeCache emptyDbState "a" demoData false).1 "a" false).1 =
        some md ∧
      md.dataHash = some (computeHash demoData.txOrder) ∧
      md.numTxs = some demoData.txOrder.length) :=
  ⟨by decide, writeCache_metadata_consistent emptyDbState "a" demoData false (by decide)⟩

/- Retry-envelope lemmas (claim C9). -/

theorem executeWithRetryAux_invocations_le (h : FailoverHandler) {E A : Type}
    (op : Nat → Except E A) (n : Nat) (_hn : h.maxRetries.toNat = n) :
    ∀ (fuel attempt : Nat) (le : Option E) (sleeps : List Int),
      attempt + fuel = n + 1 →
      (executeWithRetryAux h op attempt fuel le sleeps).invocations ≤ n := by
  intro fuel
  induction fuel with
  | zero =>
    intro attempt le sleeps hsum
    simp only [executeWithRetryAux]
    omega
  | succ fuel ih =>
    intro attempt le sleeps hsum
    rw [executeWithRetryAux]
    cases op attempt with
    | ok v => simp; omega
    | error e => exact ih _ _ _ (by omega)

theorem executeWithRetryAux_first_success (h : FailoverHandler) {E A : Type}
    (op : Nat → Except E A) (n : Nat) (hpos : 1 ≤ h.maxRetries)
    (hn : h.maxRetries.toNat = n) :
    ∀ (fuel attempt : Nat) (le : Option E) (sleeps : List Int) (k : Nat) (v : A),
      attempt + fuel = n + 1 →
      attempt ≤ k → k ≤ n →
      op k = Except.ok v →
      (∀ j, attempt ≤ j → j < k → ∃ e, op j = Except.error e) →
      executeWithRetryAux h op attempt fuel le sleeps =
        { result := Except.ok v, invocations := k,
          sleeps := sleeps ++ (List.range' attempt (k - attempt)).map (fun j => h.delayAt j) } := by
  have hcast : h.maxRetries = (n : Int) := by
    rw [← hn]
    omega
  intro fuel
  induction fuel with
  | zero =>
    intro attempt le sleeps k v hsum hak hkn hok hfail
    omega
  | succ fuel ih =>
    intro attempt le sleeps k v hsum hak hkn hok hfail
    rw [executeWithRetryAux]
    by_cases hek : attempt = k
    · subst hek
      rw [hok]
      simp
    · have hlt : attempt < k := by omega
      obtain ⟨e, he⟩ := hfail attempt (le_refl _) hlt
      rw [he]
      have hcond : ((attempt : Int) < h.maxRetries) = True := by
        simp [hcast]
        omega
      simp only [hcond, if_true]
      rw [ih (attempt + 1) (some e) (sleeps ++ [h.delayAt attempt]) k v (by omega)
        (by omega) hkn hok (fun j hj1 hj2 => hfail j (by omega) hj2)]
      have hs : sleeps ++ (List.range' attempt (k - attempt)).map (fun j => h.delayAt j) =
          (sleeps ++ [h.delayAt attempt]) ++
            (List.range' (attempt + 1) (k - (attempt + 1))).map (fun j => h.delayAt j) := by
        obtain ⟨m, hm⟩ : ∃ m, k - attempt = m + 1 := ⟨k - attempt - 1, by omega⟩
        have hm2 : k - (attempt + 1) = m := by omega
        rw [hm, hm2, show List.range' attempt (m + 1) = attempt :: List.range' (attempt + 1) m
          from rfl]
        simp
      rw [← hs]

theorem executeWithRetryAux_all_fail (h : FailoverHandler) {E A : Type}
    (op : Nat → Except E A) (n : Nat) (hpos : 1 ≤ h.maxRetries)
    (hn : h.maxRetries.toNat = n) :
    ∀ (fuel attempt : Nat) (le : Option E) (sleeps : List Int) (e : E),
      attempt + fuel = n + 1 →
      1 ≤ fuel →
      op n = Except.error e →
      (∀ j, attempt ≤ j → j ≤ n → ∃ e2, op j = Except.error e2) →
      executeWithRetryAux h op attempt fuel le sleeps =
        { result := Except.error (some e), invocations := n,
          sleeps := sleeps ++ (List.range' attempt (n - attempt)).map (fun j => h.delayAt j) } := by
  have hcast : h.maxRetries = (n : Int) := by
    rw [← hn]
    omega
  intro fuel
  induction fuel with
  | zero =>
    intro attempt le sleeps e hsum hfuel
    omega
  | succ fuel ih =>
    intro attempt le sleeps e hsum hfuel hlast hfail
    rw [executeWithRetryAux]
    cases fuel with
    | zero =>
      have hatt : attempt = n := by omega
      subst hatt
      rw [hlast]
      have hcond : ¬ ((attempt : Int) < h.maxRetries) := by
        simp [hcast]
      simp only [hcond, if_false]
      simp [executeWithRetryAux]
    | succ fuel2 =>
      have hlt : attempt < n := by omega
      obtain ⟨e2, he2⟩ := hfail attempt (le_refl _) (by omega)
      rw [he2]
      have hcond : ((attempt : Int) < h.maxRetries) = True := by
        simp [hcast]
        omega
      simp only [hcond, if_true]
      rw [ih (attempt + 1) (some e2) (sleeps ++ [h.delayAt attempt]) e (by omega)
        (by omega) hlast (fun j hj1 hj2 => hfail j (by omega) hj2)]
      have hs : sleeps ++ (List.range' attempt (n - attempt)).map (fun j => h.delayAt j) =
          (sleeps ++ [h.delayAt attempt]) ++
            (List.range' (attempt + 1) (n - (attempt + 1))).map (fun j => h.delayAt j) := by
        obtain ⟨m, hm⟩ : ∃ m, n - attempt = m + 1 := ⟨n - attempt - 1, by omega⟩
        have hm2 : n - (attempt + 1) = m := by omega
        rw [hm, hm2, show List.range' attempt (m + 1) = attempt :: List.range' (attempt + 1) m
          from rfl]
        simp
      rw [← hs]

/-- C9: for every operation and failure pattern, executeWithRetry on a
handler with exponential backoff (the only configuration reachable through
the constructor) invokes the operation at most maxRetries times, returns the
result of the first successful attempt with backoff sleeps
retryDelay * 2^(j-1) after each failed attempt j before it, and after all
maxRetries attempts fail it surfaces exactly the error of the final attempt,
having slept after every failed attempt but the last. -/
theorem executeWithRetry_spec {E A : Type} (h : FailoverHandler)
    (hpos : 1 ≤ h.maxRetries) (hexp : h.exponentialBackoff = true)
    (op : Nat → Except E A) :
    (executeWithRetry h op).invocations ≤ h.maxRetries.toNat ∧
    (∀ (k : Nat) (v : A), 1 ≤ k → k ≤ h.maxRetries.toNat →
      op k = Except.ok v →
      (∀ j, 1 ≤ j → j < k → ∃ e, op j = Except.error e) →
      executeWithRetry h op =
        { result := Except.ok v, invocations := k,
          sleeps := (List.range' 1 (k - 1)).map
            (fun j => h.retryDelay * 2 ^ (j - 1)) }) ∧
    (∀ e : E, op h.maxRetries.toNat = Except.error e →
      (∀ j, 1 ≤ j → j ≤ h.maxRetries.toNat → ∃ e2, op j = Except.error e2) →
      executeWithRetry h op =
        { result := Except.error (some e), invocations := h.maxRetries.toNat,
          sleeps := (List.range' 1 (h.maxRetries.toNat - 1)).map
            (fun j => h.retryDelay * 2 ^ (j - 1)) }) := by
  have hdelay : (fun j => h.delayAt j) = fun j : Nat => h.retryDelay * 2 ^ (j - 1) := by
    funext j
    simp [FailoverHandler.delayAt, hexp]
  have hnpos : 1 ≤ h.maxRetries.toNat := by omega
  refine ⟨?_, ?_, ?_⟩
  · exact executeWithRetryAux_invocations_le h op h.maxRetries.toNat rfl
      h.maxRetries.toNat 1 none [] (by omega)
  · intro k v hk1 hk2 hok hfail
    rw [executeWithRetry, executeWithRetryAux_first_success h op h.maxRetries.toNat hpos rfl
      h.maxRetries.toNat 1 none [] k v (by omega) hk1 hk2 hok
      (fun j hj1 hj2 => hfail j hj1 hj2)]
    simp [hdelay]
  · intro e hlast hfail
    rw [executeWithRetry, executeWithRetryAux_all_fail h op h.maxRetries.toNat hpos rfl
      h.maxRetries.toNat 1 none [] e (by omega) hnpos hlast
      (fun j hj1 hj2 => hfail j hj1 hj2)]
    simp [hdelay]

/-- Witness for C9: the default handler with failures on attempts 1 and 2 and
success on attempt 3. -/
theorem executeWithRetry_spec_witness :
    1 ≤ (FailoverHandler.ofOptions {}).maxRetries ∧
    (FailoverHandler.ofOptions {}).exponentialBackoff = true ∧
    ((executeWithRetry (FailoverHandler.ofOptions {})
        (fun j => if j < 3 then Except.error "boom" else Except.ok j)).invocations ≤
      (FailoverHandler.ofOptions {}).maxRetries.toNat ∧
    (∀ (k : Nat) (v : Nat), 1 ≤ k → k ≤ (FailoverHandler.ofOptions {}).maxRetries.toNat →
      (fun j => if j < 3 then Except.error "boom" else Except.ok j) k = Except.ok v →
      (∀ j, 1 ≤ j → j < k →
        ∃ e, (fun j => if j < 3 then Except.error "boom" else Except.ok j) j =
          Except.error e) →
      executeWithRetry (FailoverHandler.ofOptions {})
          (fun j => if j < 3 then Except.error "boom" else Except.ok j) =
        { result := Except.ok v, invocations := k,
          sleeps := (List.range' 1 (k - 1)).map
            (fun j => (FailoverHandler.ofOptions {}).retryDelay * 2 ^ (j - 1)) }) ∧
    (∀ e : String,
      (fun j => if j < 3 then Except.error "boom" else Except.ok j)
          (FailoverHandler.ofOptions {}).maxRetries.toNat = Except.error e →
      (∀ j, 1 ≤ j → j ≤ (FailoverHandler.ofOptions {}).maxRetries.toNat →
        ∃ e2, (fun j => if j < 3 then Except.error "boom" else Except.ok j) j =
          Except.error e2) →
      executeWithRetry (FailoverHandler.ofOptions {})
          (fun j => if j < 3 then Except.error "boom" else Except.ok j) =
        { result := Except.error (some e),
          invocations := (FailoverHandler.ofOptions {}).maxRetries.toNat,
          sleeps := (List.range' 1 ((FailoverHandler.ofOptions {}).maxRetries.toNat - 1)).map
            (fun j => (FailoverHandler.ofOptions {}).retryDelay * 2 ^ (j - 1)) })) :=
  ⟨by decide, by decide,
    executeWithRetry_spec (FailoverHandler.ofOptions {}) (by decide) (by decide)
      (fun j => if j < 3 then Except.error "boom" else Except.ok j)⟩

/- Store and association-list lemmas (claim C2). -/

theorem find?_filter_of_imp {α : Type} (l : List α) (p q : α → Bool)
    (h : ∀ x, p x = true → q x = true) :
    (l.filter q).find? p = l.find? p := by
  induction l with
  | nil => rfl
  | cons x xs ih =>
    cases hq : q x with
    | true =>
      cases hp : p x with
      | true => simp [List.filter_cons, hq, List.find?_cons, hp]
      | false => simp [List.filter_cons, hq, List.find?_cons, hp, ih]
    | false =>
      have hp : p x = false := by
        cases hp : p x with
        | true => rw [h x hp] at hq; cases hq
        | false => rfl
      simp [List.filter_cons, hq, List.find?_cons, hp, ih]

theorem storeGet_storePut_ne (s : Store) (k k2 : DbKey) (v : DbValue) (h : k2 ≠ k) :
    storeGet (storePut s k v) k2 = storeGet s k2 := by
  have hk : (k == k2) = false := by
    simp
    exact fun e => h e.symm
  have e := find?_filter_of_imp s (fun p => p.1 == k2) (fun p => p.1 != k)
    (fun x hx => by
      have : x.1 = k2 := by simpa using hx
      simp [this, bne]
      exact h)
  simp [storeGet, storePut, List.find?_cons, hk, e]

theorem storeGet_foldl_ne (puts : List (DbKey × DbValue)) (s : Store) (k : DbKey)
    (h : ∀ p ∈ puts, p.1 ≠ k) :
    storeGet (puts.foldl (fun s2 p => storePut s2 p.1 p.2) s) k = storeGet s k := by
  induction puts generalizing s with
  | nil => rfl
  | cons x xs ih =>
    have hx : k ≠ x.1 := fun e => h x (by simp) e.symm
    rw [List.foldl_cons, ih _ (fun p hp => h p (by simp [hp])), storeGet_storePut_ne _ _ _ _ hx]

theorem storeGet_foldl_indexed (s : Store) (key : Nat → DbKey) (val : Nat → DbValue)
    (hinj : ∀ a b, key a = key b → a = b) (pc : Nat) :
    ∀ i < pc,
      storeGet (((List.range pc).map (fun j => (key j, val j))).foldl
        (fun s2 p => storePut s2 p.1 p.2) s) (key i) = some (val i) := by
  induction pc with
  | zero => intro i hi; omega
  | succ pc ih =>
    intro i hi
    rw [List.range_succ, List.map_append, List.foldl_append]
    by_cases hip : i = pc
    · subst hip
      simp [storeGet_storePut_same]
    · have hne : key i ≠ key pc := fun e => hip (hinj _ _ e)
      simp only [List.map_cons, List.map_nil, List.foldl_cons, List.foldl_nil]
      rw [storeGet_storePut_ne _ _ _ _ hne]
      exact ih i (by omega)

theorem alistLookup_jsObjectSet_ne {α : Type} (m : List (String × α)) (k k2 : String) (v : α)
    (h : k2 ≠ k) :
    alistLookup (jsObjectSet m k v) k2 = alistLookup m k2 := by
  have hk : (k == k2) = false := by
    simp
    exact fun e => h e.symm
  induction m with
  | nil => simp [jsObjectSet, alistLookup, List.find?_cons, hk]
  | cons p ps ih =>
    by_cases hp : p.1 == k
    · have hpk : p.1 = k := by simpa using hp
      simp [jsObjectSet, hp, alistLookup, List.find?_cons, hk, hpk]
    · have hpb : (p.1 == k) = false := by simpa using hp
      cases hp2 : p.1 == k2 with
      | true => simp [jsObjectSet, hpb, alistLookup, List.find?_cons, hp2]
      | false =>
        simp only [jsObjectSet, hpb, Bool.false_eq_true, if_false]
        simpa [alistLookup, List.find?_cons, hp2] using ih

theorem alistLookup_jsAssign_nodup (c : List (String × Transaction)) :
    ∀ (m : List (String × Transaction)) (k : String), ((c.map Prod.fst).Nodup) →
    alistLookup (jsAssign m c) k =
      match alistLookup c k with
      | some v => some v
      | none => alistLookup m k := by
  induction c with
  | nil => intro m k _; simp [jsAssign, alistLookup]
  | cons p ps ih =>
    intro m k hnd
    have hnd2 : (ps.map Prod.fst).Nodup := by
      simpa using hnd.sublist (by simp)
    have e : jsAssign m (p :: ps) = jsAssign (jsObjectSet m p.1 p.2) ps := rfl
    rw [e, ih _ k hnd2]
    by_cases hk : k = p.1
    · subst hk
      have hni : p.1 ∉ ps.map Prod.fst := by
        have h2 : (p.1 :: ps.map Prod.fst).Nodup := by simpa using hnd
        exact (List.nodup_cons.mp h2).1
      have hknotin : alistLookup ps p.1 = none := by
        cases hfind : ps.find? (fun q => q.1 == p.1) with
        | none => simp [alistLookup, hfind]
        | some q =>
          have hq := List.find?_some hfind
          have hqm := List.mem_of_find?_eq_some hfind
          have hq2 : q.1 = p.1 := by simpa using hq
          exact absurd (hq2 ▸ List.mem_map_of_mem Prod.fst hqm) hni
      have hhead : alistLookup (p :: ps) p.1 = some p.2 := by
        simp [alistLookup, List.find?_cons]
      simp only [hknotin, alistLookup_jsObjectSet_same, hhead]
    · have hkb : (p.1 == k) = false := by
        simp
        exact fun e2 => hk e2.symm
      have e2 : alistLookup (p :: ps) k = alistLookup ps k := by
        simp [alistLookup, List.find?_cons, hkb]
      rw [e2, alistLookup_jsObjectSet_ne _ _ _ _ hk]

theorem sliceList_zero (l : List α) :
    sliceList l (0 * MAX_ITEMS_PER_KEY) ((0 + 1) * MAX_ITEMS_PER_KEY) =
      l.take MAX_ITEMS_PER_KEY := by
  simp [sliceList]

theorem sliceList_shift (l : List α) (i : Nat) :
    sliceList l ((i + 1) * MAX_ITEMS_PER_KEY) ((i + 1 + 1) * MAX_ITEMS_PER_KEY) =
      sliceList (l.drop MAX_ITEMS_PER_KEY) (i * MAX_ITEMS_PER_KEY) ((i + 1) * MAX_ITEMS_PER_KEY) := by
  have e1 : (i + 1 + 1) * MAX_ITEMS_PER_KEY - (i + 1) * MAX_ITEMS_PER_KEY =
      (i + 1) * MAX_ITEMS_PER_KEY - i * MAX_ITEMS_PER_KEY := by
    simp [MAX_ITEMS_PER_KEY]
    omega
  have e2 : MAX_ITEMS_PER_KEY + i * MAX_ITEMS_PER_KEY = (i + 1) * MAX_ITEMS_PER_KEY := by
    simp [MAX_ITEMS_PER_KEY]
    omega
  simp [sliceList, List.drop_drop, e1, e2]

theorem join_slices_aux :
    ∀ (m : Nat) (l : List String), l.length ≤ m →
      (((List.range (ceilDivNat l.length MAX_ITEMS_PER_KEY)).map
        (fun i => sliceList l (i * MAX_ITEMS_PER_KEY) ((i + 1) * MAX_ITEMS_PER_KEY))).flatten) = l := by
  intro m
  induction m with
  | zero =>
    intro l hl
    have : l = [] := List.length_eq_zero.mp (by omega)
    subst this
    simp [ceilDivNat, MAX_ITEMS_PER_KEY]
  | succ m ih =>
    intro l hl
    by_cases hz : l.length = 0
    · have : l = [] := List.length_eq_zero.mp hz
      subst this
      simp [ceilDivNat, MAX_ITEMS_PER_KEY]
    · have hpc : ceilDivNat l.length MAX_ITEMS_PER_KEY =
          (ceilDivNat (l.length - MAX_ITEMS_PER_KEY) MAX_ITEMS_PER_KEY) + 1 := by
        simp [ceilDivNat, MAX_ITEMS_PER_KEY]
        omega
      rw [hpc, List.range_succ_eq_map, List.map_cons, List.map_map, List.flatten_cons]
      have hshift : (List.range (ceilDivNat (l.length - MAX_ITEMS_PER_KEY) MAX_ITEMS_PER_KEY)).map
          ((fun i => sliceList l (i * MAX_ITEMS_PER_KEY) ((i + 1) * MAX_ITEMS_PER_KEY)) ∘ Nat.succ) =
          (List.range (ceilDivNat (l.drop MAX_ITEMS_PER_KEY).length MAX_ITEMS_PER_KEY)).map
          (fun i => sliceList (l.drop MAX_ITEMS_PER_KEY) (i * MAX_ITEMS_PER_KEY)
            ((i + 1) * MAX_ITEMS_PER_KEY)) := by
        rw [List.length_drop]
        refine List.map_congr_left ?_
        intro i _
        exact sliceList_shift l i
      rw [hshift, ih (l.drop MAX_ITEMS_PER_KEY) (by simp [List.length_drop, MAX_ITEMS_PER_KEY]; omega)]
      rw [sliceList_zero]
      exact List.take_append_drop _ l

theorem join_slices (l : List String) :
    (((List.range (ceilDivNat l.length MAX_ITEMS_PER_KEY)).map
      (fun i => sliceList l (i * MAX_ITEMS_PER_KEY) ((i + 1) * MAX_ITEMS_PER_KEY))).flatten) = l :=
  join_slices_aux l.length l (le_refl _)

theorem alistLookup_chunkMapOf (m : List (String × Transaction)) (slice : List String)
    (k : String) :
    alistLookup (chunkMapOf m slice) k = if k ∈ slice then alistLookup m k else none := by
  induction slice with
  | nil => simp [chunkMapOf, alistLookup]
  | cons t ts ih =>
    by_cases hk : k = t
    · subst hk
      cases hl : alistLookup m k with
      | none =>
        have e : chunkMapOf m (k :: ts) = chunkMapOf m ts := by
          simp [chunkMapOf, List.filterMap_cons, hl]
        rw [e, ih]
        simp [hl]
      | some v =>
        have e : chunkMapOf m (k :: ts) = (k, v) :: chunkMapOf m ts := by
          simp [chunkMapOf, List.filterMap_cons, hl]
        have e3 : alistLookup ((k, v) :: chunkMapOf m ts) k = some v := by
          simp [alistLookup, List.find?_cons]
        rw [e, e3]
        simp [hl]
    · cases hl : alistLookup m t with
      | none =>
        have e : chunkMapOf m (t :: ts) = chunkMapOf m ts := by
          simp [chunkMapOf, List.filterMap_cons, hl]
        rw [e, ih]
        simp [hk]
      | some v =>
        have e : chunkMapOf m (t :: ts) = (t, v) :: chunkMapOf m ts := by
          simp [chunkMapOf, List.filterMap_cons, hl]
        have hkb : (t == k) = false := by
          simp
          exact fun e2 => hk e2.symm
        have e2 : alistLookup ((t, v) :: chunkMapOf m ts) k = alistLookup (chunkMapOf m ts) k := by
          simp [alistLookup, List.find?_cons, hkb]
        rw [e, e2, ih]
        simp [hk]

theorem chunkMapOf_keys_sub (m : List (String × Transaction)) (slice : List String) :
    ∀ k ∈ (chunkMapOf m slice).map Prod.fst, k ∈ slice := by
  induction slice with
  | nil => simp [chunkMapOf]
  | cons t ts ih =>
    intro k hk
    cases hl : alistLookup m t with
    | none =>
      have e : chunkMapOf m (t :: ts) = chunkMapOf m ts := by
        simp [chunkMapOf, List.filterMap_cons, hl]
      rw [e] at hk
      exact List.mem_cons_of_mem _ (ih k hk)
    | some v =>
      have e : chunkMapOf m (t :: ts) = (t, v) :: chunkMapOf m ts := by
        simp [chunkMapOf, List.filterMap_cons, hl]
      rw [e] at hk
      rcases (by simpa using hk : k = t ∨ k ∈ (chunkMapOf m ts).map Prod.fst) with h | h
      · simp [h]
      · exact List.mem_cons_of_mem _ (ih k h)

theorem chunkMapOf_keys_nodup (m : List (String × Transaction)) (slice : List String)
    (h : slice.Nodup) : ((chunkMapOf m slice).map Prod.fst).Nodup := by
  induction slice with
  | nil => simp [chunkMapOf]
  | cons t ts ih =>
    have hnd := List.nodup_cons.mp h
    cases hl : alistLookup m t with
    | none =>
      have e : chunkMapOf m (t :: ts) = chunkMapOf m ts := by
        simp [chunkMapOf, List.filterMap_cons, hl]
      rw [e]
      exact ih hnd.2
    | some v =>
      have e : chunkMapOf m (t :: ts) = (t, v) :: chunkMapOf m ts := by
        simp [chunkMapOf, List.filterMap_cons, hl]
      rw [e]
      refine List.nodup_cons.mpr ⟨?_, ih hnd.2⟩
      intro hmem
      exact hnd.1 (chunkMapOf_keys_sub m ts t hmem)

theorem readOrderChunks_spec (store : Store) (id : String) (ord : List String) :
    ∀ pc : Nat,
      (∀ i, i < pc → storeGet store (DbKey.orderChunk id i) =
        some (DbValue.order (sliceList ord (i * MAX_ITEMS_PER_KEY) ((i + 1) * MAX_ITEMS_PER_KEY)))) →
      readOrderChunks store id pc =
        some (((List.range pc).map
          (fun i => sliceList ord (i * MAX_ITEMS_PER_KEY) ((i + 1) * MAX_ITEMS_PER_KEY))).flatten) := by
  intro pc
  induction pc with
  | zero => intro _; simp [readOrderChunks]
  | succ pc ih =>
    intro h
    rw [readOrderChunks, ih (fun i hi => h i (by omega)), h pc (by omega)]
    simp [List.range_succ, Option.bind]

theorem readMapChunks_spec (store : Store) (id : String) (m : List (String × Transaction))
    (ord : List String) (hnd : ord.Nodup) :
    ∀ pc : Nat,
      (∀ i, i < pc → storeGet store (DbKey.mapChunk id i) =
        some (DbValue.txmap (chunkMapOf m
          (sliceList ord (i * MAX_ITEMS_PER_KEY) ((i + 1) * MAX_ITEMS_PER_KEY))))) →
      ∃ M, readMapChunks store id pc = some M ∧
        ∀ k, alistLookup M k =
          if k ∈ ((List.range pc).map
              (fun i => sliceList ord (i * MAX_ITEMS_PER_KEY) ((i + 1) * MAX_ITEMS_PER_KEY))).flatten
          then alistLookup m k else none := by
  intro pc
  induction pc with
  | zero =>
    intro _
    refine ⟨[], by simp [readMapChunks], ?_⟩
    intro k
    simp [alistLookup]
  | succ pc ih =>
    intro h
    obtain ⟨M, hM, hlook⟩ := ih (fun i hi => h i (by omega))
    have hslicend : (sliceList ord (pc * MAX_ITEMS_PER_KEY)
        ((pc + 1) * MAX_ITEMS_PER_KEY)).Nodup :=
      List.Sublist.nodup ((List.take_sublist _ _).trans (List.drop_sublist _ _)) hnd
    have hcm := chunkMapOf_keys_nodup m _ hslicend
    refine ⟨jsAssign M (chunkMapOf m
      (sliceList ord (pc * MAX_ITEMS_PER_KEY) ((pc + 1) * MAX_ITEMS_PER_KEY))), ?_, ?_⟩
    · rw [readMapChunks, hM, h pc (by omega)]
      rfl
    · intro k
      rw [alistLookup_jsAssign_nodup _ _ _ hcm, alistLookup_chunkMapOf, hlook]
      by_cases hks : k ∈ sliceList ord (pc * MAX_ITEMS_PER_KEY) ((pc + 1) * MAX_ITEMS_PER_KEY)
      · cases hlm : alistLookup m k with
        | none => simp [hks, hlm, List.range_succ]
        | some v => simp [hks, hlm, List.range_succ]
      · have hmem : (k ∈ ((List.range (pc + 1)).map
            (fun i => sliceList ord (i * MAX_ITEMS_PER_KEY)
              ((i + 1) * MAX_ITEMS_PER_KEY))).flatten) ↔
            (k ∈ ((List.range pc).map
            (fun i => sliceList ord (i * MAX_ITEMS_PER_KEY)
              ((i + 1) * MAX_ITEMS_PER_KEY))).flatten) := by
          simp [List.range_succ, hks]
        simp only [hks, if_false]
        by_cases hin : k ∈ ((List.range pc).map
            (fun i => sliceList ord (i * MAX_ITEMS_PER_KEY)
              ((i + 1) * MAX_ITEMS_PER_KEY))).flatten
        · simp [hin, hmem.mpr hin]
        · rw [if_neg (fun hc => hin (hmem.mp hc)), if_neg hin]

theorem writeCache_store_flat (st : DbState) (id : String) (d : CacheData) (tok : Bool)
    (hsk : writeSkips (getGlobalMetadata st id tok).1 (computeHash d.txOrder) = false)
    (hlen : ¬ d.txOrder.length > MAX_ITEMS_PER_KEY) :
    ∃ mdv : CacheMetadata,
      (writeCache st id d tok).1.store =
        storePut (storePut (storePut st.store (DbKey.flatMap id) (DbValue.txmap d.txMap))
          (DbKey.flatOrder id) (DbValue.order d.txOrder))
          (DbKey.metadataOf (globalKey id tok)) (DbValue.metadata mdv) := by
  have hbase : (getGlobalMetadata st id tok).2.store = st.store := getGlobalMetadata_store st id tok
  unfold writeCache
  rcases hg : getGlobalMetadata st id tok with ⟨mdOpt, stG⟩
  rw [hg] at hsk hbase
  simp only at hsk hbase
  simp only [hsk, Bool.false_eq_true, if_false, hlen]
  refine ⟨{ (mdOpt.getD { accessCount := 0, dataHash := none, numTxs := none }) with dataHash := some (computeHash d.txOrder), numTxs := some d.txOrder.length }, ?_⟩
  simp only [updateGlobalMetadata, List.foldl_cons, List.foldl_nil, hbase]

theorem writeCache_store_chunked (st : DbState) (id : String) (d : CacheData) (tok : Bool)
    (hsk : writeSkips (getGlobalMetadata st id tok).1 (computeHash d.txOrder) = false)
    (hlen : d.txOrder.length > MAX_ITEMS_PER_KEY) :
    ∃ mdv : CacheMetadata,
      (writeCache st id d tok).1.store =
        storePut
          ((orderChunkPuts id d.txOrder (ceilDivNat d.txOrder.length MAX_ITEMS_PER_KEY)
              ++ [(DbKey.orderMeta id, DbValue.meta
                    (ceilDivNat d.txOrder.length MAX_ITEMS_PER_KEY) d.txOrder.length)]
              ++ mapChunkPuts id d (ceilDivNat d.txOrder.length MAX_ITEMS_PER_KEY)
              ++ [(DbKey.mapMeta id, DbValue.meta
                    (ceilDivNat d.txOrder.length MAX_ITEMS_PER_KEY) d.txOrder.length)]).foldl
            (fun s2 p => storePut s2 p.1 p.2) st.store)
          (DbKey.metadataOf (globalKey id tok)) (DbValue.metadata mdv) := by
  have hbase : (getGlobalMetadata st id tok).2.store = st.store := getGlobalMetadata_store st id tok
  unfold writeCache
  rcases hg : getGlobalMetadata st id tok with ⟨mdOpt, stG⟩
  rw [hg] at hsk hbase
  simp only at hsk hbase
  simp only [hsk, Bool.false_eq_true, if_false, hlen, if_true]
  refine ⟨{ (mdOpt.getD { accessCount := 0, dataHash := none, numTxs := none }) with dataHash := some (computeHash d.txOrder), numTxs := some d.txOrder.length }, ?_⟩
  simp only [updateGlobalMetadata, hbase]

theorem chunkedStore_gets (base : Store) (id : String) (d : CacheData) (pc total : Nat) :
    storeGet ((orderChunkPuts id d.txOrder pc
        ++ [(DbKey.orderMeta id, DbValue.meta pc total)]
        ++ mapChunkPuts id d pc
        ++ [(DbKey.mapMeta id, DbValue.meta pc total)]).foldl
        (fun s2 p => storePut s2 p.1 p.2) base) (DbKey.orderMeta id) =
      some (DbValue.meta pc total) ∧
    storeGet ((orderChunkPuts id d.txOrder pc
        ++ [(DbKey.orderMeta id, DbValue.meta pc total)]
        ++ mapChunkPuts id d pc
        ++ [(DbKey.mapMeta id, DbValue.meta pc total)]).foldl
        (fun s2 p => storePut s2 p.1 p.2) base) (DbKey.mapMeta id) =
      some (DbValue.meta pc total) ∧
    (∀ i, i < pc →
      storeGet ((orderChunkPuts id d.txOrder pc
          ++ [(DbKey.orderMeta id, DbValue.meta pc total)]
          ++ mapChunkPuts id d pc
          ++ [(DbKey.mapMeta id, DbValue.meta pc total)]).foldl
          (fun s2 p => storePut s2 p.1 p.2) base) (DbKey.orderChunk id i) =
        some (DbValue.order (sliceList d.txOrder (i * MAX_ITEMS_PER_KEY)
          ((i + 1) * MAX_ITEMS_PER_KEY)))) ∧
    (∀ i, i < pc →
      storeGet ((orderChunkPuts id d.txOrder pc
          ++ [(DbKey.orderMeta id, DbValue.meta pc total)]
          ++ mapChunkPuts id d pc
          ++ [(DbKey.mapMeta id, DbValue.meta pc total)]).foldl
          (fun s2 p => storePut s2 p.1 p.2) base) (DbKey.mapChunk id i) =
        some (DbValue.txmap (chunkMapOf d.txMap (sliceList d.txOrder (i * MAX_ITEMS_PER_KEY)
          ((i + 1) * MAX_ITEMS_PER_KEY))))) := by
  have hAne : ∀ k : DbKey, (∀ i2 : Nat, k ≠ DbKey.orderChunk id i2) →
      ∀ p ∈ orderChunkPuts id d.txOrder pc, p.1 ≠ k := by
    intro k hk p hp
    simp only [orderChunkPuts, List.mem_map, List.mem_range] at hp
    obtain ⟨i2, _, rfl⟩ := hp
    exact fun e => hk i2 e.symm
  have hCne : ∀ k : DbKey, (∀ i2 : Nat, k ≠ DbKey.mapChunk id i2) →
      ∀ p ∈ mapChunkPuts id d pc, p.1 ≠ k := by
    intro k hk p hp
    simp only [mapChunkPuts, List.mem_map, List.mem_range] at hp
    obtain ⟨i2, _, rfl⟩ := hp
    exact fun e => hk i2 e.symm
  rw [List.foldl_append, List.foldl_append, List.foldl_append]
  simp only [List.foldl_cons, List.foldl_nil]
  refine ⟨?_, ?_, ?_, ?_⟩
  · rw [storeGet_storePut_ne _ _ _ _ (by simp)]
    rw [storeGet_foldl_ne _ _ _ (hCne _ (by intro i2; simp))]
    exact storeGet_storePut_same _ _ _
  · exact storeGet_storePut_same _ _ _
  · intro i hi
    rw [storeGet_storePut_ne _ _ _ _ (by simp)]
    rw [storeGet_foldl_ne _ _ _ (hCne _ (by intro i2; simp))]
    rw [storeGet_storePut_ne _ _ _ _ (by simp)]
    exact storeGet_foldl_indexed base (fun j => DbKey.orderChunk id j)
      (fun j => DbValue.order (sliceList d.txOrder (j * MAX_ITEMS_PER_KEY)
        ((j + 1) * MAX_ITEMS_PER_KEY)))
      (fun a b e => by simpa using e) pc i hi
  · intro i hi
    rw [storeGet_storePut_ne _ _ _ _ (by simp)]
    exact storeGet_foldl_indexed _ (fun j => DbKey.mapChunk id j)
      (fun j => DbValue.txmap (chunkMapOf d.txMap (sliceList d.txOrder (j * MAX_ITEMS_PER_KEY)
        ((j + 1) * MAX_ITEMS_PER_KEY))))
      (fun a b e => by simpa using e) pc i hi

theorem readCache_of_flat (st : DbState) (id : String) (ord : List String)
    (m : List (String × Transaction))
    (h1 : storeGet st.store (DbKey.orderMeta id) = none)
    (h2 : storeGet st.store (DbKey.flatOrder id) = some (DbValue.order ord))
    (h3 : storeGet st.store (DbKey.mapMeta id) = none)
    (h4 : storeGet st.store (DbKey.flatMap id) = some (DbValue.txmap m)) :
    ∃ n : Nat, (readCache st id).1 = some { txMap := m, txOrder := ord, numTxs := n } := by
  unfold readCache
  rcases hg : getGlobalMetadata st id false with ⟨mdOpt, st1⟩
  simp only [h1, h2, h3, h4, hg]
  exact ⟨_, rfl⟩

theorem readCache_of_chunked (st : DbState) (id : String) (pc pc2 t1 t2 : Nat)
    (ord : List String) (m : List (String × Transaction))
    (h1 : storeGet st.store (DbKey.orderMeta id) = some (DbValue.meta pc t1))
    (h2 : readOrderChunks st.store id pc = some ord)
    (h3 : storeGet st.store (DbKey.mapMeta id) = some (DbValue.meta pc2 t2))
    (h4 : readMapChunks st.store id pc2 = some m) :
    ∃ n : Nat, (readCache st id).1 = some { txMap := m, txOrder := ord, numTxs := n } := by
  unfold readCache
  rcases hg : getGlobalMetadata st id false with ⟨mdOpt, st1⟩
  simp only [h1, h2, h3, h4, hg]
  exact ⟨_, rfl⟩

/-- C2 (amended): when data.txOrder lists exactly the keys of data.txMap
(without repetition), the stored dataHash differs from hash(data.txOrder) so
the write is not skipped, and — in the flat case — no stale chunk meta headers
for the subject are left in the store, write(S, data) followed by read(S)
succeeds and returns txOrder equal to data.txOrder and a txMap with exactly
the lookups of data.txMap (both layouts). -/
theorem writeCache_readCache_roundtrip (st : DbState) (id : String) (d : CacheData)
    (isToken : Bool)
    (hnd : d.txOrder.Nodup)
    (hcov : ∀ k, k ∈ d.txOrder ↔ (alistLookup d.txMap k).isSome = true)
    (hsk : writeSkips (getGlobalMetadata st id isToken).1 (computeHash d.txOrder) = false)
    (hm1 : ¬ d.txOrder.length > MAX_ITEMS_PER_KEY →
      storeGet st.store (DbKey.orderMeta id) = none)
    (hm2 : ¬ d.txOrder.length > MAX_ITEMS_PER_KEY →
      storeGet st.store (DbKey.mapMeta id) = none) :
    ∃ r : ReadCacheResult,
      (readCache (writeCache st id d isToken).1 id).1 = some r ∧
      r.txOrder = d.txOrder ∧
      ∀ k, alistLookup r.txMap k = alistLookup d.txMap k := by
  by_cases hlen : d.txOrder.length > MAX_ITEMS_PER_KEY
  · obtain ⟨mdv, hstore⟩ := writeCache_store_chunked st id d isToken hsk hlen
    obtain ⟨g1, g2, g3, g4⟩ := chunkedStore_gets st.store id d
      (ceilDivNat d.txOrder.length MAX_ITEMS_PER_KEY) d.txOrder.length
    have h1 : storeGet (writeCache st id d isToken).1.store (DbKey.orderMeta id) =
        some (DbValue.meta (ceilDivNat d.txOrder.length MAX_ITEMS_PER_KEY)
          d.txOrder.length) := by
      rw [hstore, storeGet_storePut_ne _ _ _ _ (by simp)]
      exact g1
    have h3 : storeGet (writeCache st id d isToken).1.store (DbKey.mapMeta id) =
        some (DbValue.meta (ceilDivNat d.txOrder.length MAX_ITEMS_PER_KEY)
          d.txOrder.length) := by
      rw [hstore, storeGet_storePut_ne _ _ _ _ (by simp)]
      exact g2
    have hchunkOrd : ∀ i, i < ceilDivNat d.txOrder.length MAX_ITEMS_PER_KEY →
        storeGet (writeCache st id d isToken).1.store (DbKey.orderChunk id i) =
          some (DbValue.order (sliceList d.txOrder (i * MAX_ITEMS_PER_KEY)
            ((i + 1) * MAX_ITEMS_PER_KEY))) := by
      intro i hi
      rw [hstore, storeGet_storePut_ne _ _ _ _ (by simp)]
      exact g3 i hi
    have hchunkMap : ∀ i, i < ceilDivNat d.txOrder.length MAX_ITEMS_PER_KEY →
        storeGet (writeCache st id d isToken).1.store (DbKey.mapChunk id i) =
          some (DbValue.txmap (chunkMapOf d.txMap (sliceList d.txOrder
            (i * MAX_ITEMS_PER_KEY) ((i + 1) * MAX_ITEMS_PER_KEY)))) := by
      intro i hi
      rw [hstore, storeGet_storePut_ne _ _ _ _ (by simp)]
      exact g4 i hi
    have h2 := readOrderChunks_spec (writeCache st id d isToken).1.store id d.txOrder
      (ceilDivNat d.txOrder.length MAX_ITEMS_PER_KEY) hchunkOrd
    rw [join_slices] at h2
    obtain ⟨M, h4, hMlook⟩ := readMapChunks_spec (writeCache st id d isToken).1.store id
      d.txMap d.txOrder hnd (ceilDivNat d.txOrder.length MAX_ITEMS_PER_KEY) hchunkMap
    obtain ⟨n, hread⟩ := readCache_of_chunked (writeCache st id d isToken).1 id
      _ _ _ _ _ _ h1 h2 h3 h4
    refine ⟨_, hread, rfl, ?_⟩
    intro k
    have hMk := hMlook k
    rw [join_slices] at hMk
    show alistLookup M k = alistLookup d.txMap k
    rw [hMk]
    by_cases hk : k ∈ d.txOrder
    · simp [hk]
    · have hnone : alistLookup d.txMap k = none := by
        cases ho : alistLookup d.txMap k with
        | none => rfl
        | some v => exact absurd ((hcov k).mpr (by simp [ho])) hk
      simp [hk, hnone]
  · obtain ⟨mdv, hstore⟩ := writeCache_store_flat st id d isToken hsk hlen
    have h1 : storeGet (writeCache st id d isToken).1.store (DbKey.orderMeta id) = none := by
      rw [hstore, storeGet_storePut_ne _ _ _ _ (by simp),
        storeGet_storePut_ne _ _ _ _ (by simp), storeGet_storePut_ne _ _ _ _ (by simp)]
      exact hm1 hlen
    have h2 : storeGet (writeCache st id d isToken).1.store (DbKey.flatOrder id) =
        some (DbValue.order d.txOrder) := by
      rw [hstore, storeGet_storePut_ne _ _ _ _ (by simp)]
      exact storeGet_storePut_same _ _ _
    have h3 : storeGet (writeCache st id d isToken).1.store (DbKey.mapMeta id) = none := by
      rw [hstore, storeGet_storePut_ne _ _ _ _ (by simp),
        storeGet_storePut_ne _ _ _ _ (by simp), storeGet_storePut_ne _ _ _ _ (by simp)]
      exact hm2 hlen
    have h4 : storeGet (writeCache st id d isToken).1.store (DbKey.flatMap id) =
        some (DbValue.txmap d.txMap) := by
      rw [hstore, storeGet_storePut_ne _ _ _ _ (by simp),
        storeGet_storePut_ne _ _ _ _ (by simp)]
      exact storeGet_storePut_same _ _ _
    obtain ⟨n, hread⟩ := readCache_of_flat (writeCache st id d isToken).1 id
      d.txOrder d.txMap h1 h2 h3 h4
    exact ⟨_, hread, rfl, fun k => rfl⟩

/-- A store still holding a stale chunked layout for subject S; there is no
global metadata entry for S, so a subsequent write is not skipped. -/
def cxStaleStore : Store :=
  [(DbKey.orderMeta "S", DbValue.meta 1 1),
   (DbKey.orderChunk "S" 0, DbValue.order ["a"]),
   (DbKey.mapMeta "S", DbValue.meta 1 1),
   (DbKey.mapChunk "S" 0, DbValue.txmap [("a", demoTx)])]

/-- Fresh one-transaction cache data for subject S under key "b". -/
def cxData : CacheData where
  txMap := [("b", demoTx)]
  txOrder := ["b"]

/-- Counterexample to C2 as stated: over a store still holding a stale chunked
layout for S, a small (flat-layout) write of txOrder ["b"] completes and is
not skipped (it issues puts), its txOrder lists exactly the keys of its txMap,
yet the immediately following read prefers the stale chunk meta header and
returns txOrder ["a"], not ["b"]. -/
theorem writeCache_readCache_roundtrip_cx :
    cxData.txMap.map Prod.fst = cxData.txOrder ∧
    (writeCache { store := cxStaleStore, metaCache := [] } "S" cxData false).2 ≠ [] ∧
    (readCache (writeCache { store := cxStaleStore, metaCache := [] } "S" cxData false).1
        "S").1.map ReadCacheResult.txOrder = some ["a"] ∧
    some ["a"] ≠ some cxData.txOrder := by
  refine ⟨rfl, by decide, by decide, by decide⟩

/-- Witness for C2 (amended) on a fresh store: a flat write of one transaction
followed by a read returns exactly what was written. -/
theorem writeCache_readCache_roundtrip_witness :
    ∃ r : ReadCacheResult,
      (readCache (writeCache emptyDbState "W" demoData false).1 "W").1 = some r ∧
      r.txOrder = demoData.txOrder ∧
      ∀ k, alistLookup r.txMap k = alistLookup demoData.txMap k := by
  refine writeCache_readCache_roundtrip emptyDbState "W" demoData false (by decide) ?_
    (by decide) (fun _ => rfl) (fun _ => rfl)
  intro k
  constructor
  · intro hmem
    have hk : k = "t" := by simpa [demoData] using hmem
    subst hk
    decide
  · intro hsome
    by_cases hk : k = "t"
    · subst hk
      simp [demoData]
    · have hb : ("t" == k) = false := by
        simp only [beq_eq_false_iff_ne, ne_eq]
        exact fun h => hk h.symm
      simp [demoData, alistLookup, List.find?_cons, hb] at hsome

end ChronikCache
